import Mathlib

/-!
Verification development for the FinanceTracker transaction engine
(`src/logic.py`).  Python floats are modelled as exact rationals (every
float is a dyadic rational, hence exactly representable); `round(x, 2)`
is modelled as round-half-to-even to a multiple of 1/100; Python strings
are Lean strings operated on through their character lists.
-/

/- ### Character and string helpers (Python `in`, `.lower()`, `.upper()`, `.strip()`) -/

/-- `leadsWith n h` is true when the list `n` is an initial segment of `h`. -/
def leadsWith : List Char → List Char → Bool
  | [], _ => true
  | _ :: _, [] => false
  | a :: as, b :: bs => a == b && leadsWith as bs

/-- `hasSub n h` is true when `n` occurs contiguously inside `h`
(the semantics of Python `n in h` for strings). -/
def hasSub (n : List Char) : List Char → Bool
  | [] => n.isEmpty
  | c :: rest => leadsWith n (c :: rest) || hasSub n rest

/-- Python `needle in hay` on strings. -/
def strIn (needle hay : String) : Bool := hasSub needle.data hay.data

/-- Python `str.lower()` (ASCII range, which is all the engine compares). -/
def pyLower (s : String) : String := String.mk (s.data.map Char.toLower)

/-- Python `str.upper()` (ASCII range). -/
def pyUpper (s : String) : String := String.mk (s.data.map Char.toUpper)

/-- Python `str.strip()`: drop whitespace from both ends. -/
def pyStrip (s : String) : String :=
  String.mk (((s.data.dropWhile Char.isWhitespace).reverse.dropWhile Char.isWhitespace).reverse)

/- ### Decimal digits: printing and parsing -/

def digitChar (d : ℕ) : Char := Char.ofNat (48 + d)

/-- Little-endian decimal digits of `n` (always non-empty). -/
def natLE (n : ℕ) : List ℕ :=
  if h : n < 10 then [n] else (n % 10) :: natLE (n / 10)
decreasing_by exact Nat.div_lt_self (by omega) (by omega)

/-- Decimal print of a natural number, most significant digit first. -/
def printNat (n : ℕ) : List Char := ((natLE n).map digitChar).reverse

/-- Consume leading decimal digits, accumulating value and digit count. -/
def parseDigitsCnt (acc cnt : ℕ) : List Char → ℕ × ℕ × List Char
  | [] => (acc, cnt, [])
  | c :: cs =>
    if c.isDigit then parseDigitsCnt (10 * acc + (c.toNat - 48)) (cnt + 1) cs
    else (acc, cnt, c :: cs)

/-- Two-digit zero-padded print (for months, days, hours, ...). -/
def pad2 (n : ℕ) : List Char := [digitChar (n / 10 % 10), digitChar (n % 10)]

/-- Four-digit zero-padded print (for years). -/
def pad4 (n : ℕ) : List Char :=
  [digitChar (n / 1000 % 10), digitChar (n / 100 % 10), digitChar (n / 10 % 10),
    digitChar (n % 10)]

/-- Six-digit zero-padded print (for microseconds). -/
def pad6 (n : ℕ) : List Char :=
  [digitChar (n / 100000 % 10), digitChar (n / 10000 % 10), digitChar (n / 1000 % 10),
    digitChar (n / 100 % 10), digitChar (n / 10 % 10), digitChar (n % 10)]

/-- Zero-padded fractional part: exactly `k` digits for a value `n < 10 ^ k`. -/
def padFrac (k n : ℕ) : List Char :=
  List.replicate (k - (natLE n).length) '0' ++ printNat n

/- ### Rounding: Python `round(x, 2)` on exact rationals -/

/-- Round a rational to the nearest integer, ties to even
(the rounding used by Python `round`). -/
def roundEven (q : ℚ) : ℤ :=
  if q - (⌊q⌋ : ℚ) < 1 / 2 then ⌊q⌋
  else if 1 / 2 < q - (⌊q⌋ : ℚ) then ⌊q⌋ + 1
  else if ⌊q⌋ % 2 = 0 then ⌊q⌋ else ⌊q⌋ + 1

/-- Python `round(x, 2)`. -/
def round2 (q : ℚ) : ℚ := (roundEven (100 * q) : ℚ) / 100

/-- `normalize_amount` from `src/logic.py`: `round(abs(float(amount)), 2)`. -/
def normalize_amount (amount : ℚ) : ℚ := round2 |amount|

/- ### Calendar dates and datetimes (Python `datetime.date` / `datetime.datetime`) -/

/-- Model of `datetime.date`: a Python date object always holds a real
calendar date with `1 <= year <= 9999`. -/
structure PyDate where
  year : ℕ
  month : ℕ
  day : ℕ
deriving DecidableEq

/-- Gregorian leap-year rule. -/
def isLeap (y : ℕ) : Bool := (y % 4 = 0 && y % 100 ≠ 0) || y % 400 = 0

/-- Days in a month of a given year. -/
def daysInMonth (y m : ℕ) : ℕ :=
  if m = 2 then (if isLeap y then 29 else 28)
  else if m = 4 ∨ m = 6 ∨ m = 9 ∨ m = 11 then 30
  else 31

/-- The invariant every constructed `datetime.date` satisfies. -/
def PyDate.Valid (d : PyDate) : Prop :=
  1 ≤ d.year ∧ d.year ≤ 9999 ∧ 1 ≤ d.month ∧ d.month ≤ 12 ∧
    1 ≤ d.day ∧ d.day ≤ daysInMonth d.year d.month

instance (d : PyDate) : Decidable d.Valid := by unfold PyDate.Valid; infer_instance

/-- Python date comparison: lexicographic on (year, month, day). -/
def date_le (a b : PyDate) : Bool :=
  a.year < b.year || (a.year = b.year &&
    (a.month < b.month || (a.month = b.month && a.day ≤ b.day)))

/-- Model of `datetime.datetime` (microsecond resolution, no timezone,
matching the naive datetimes the engine stores). -/
structure PyDateTime where
  date : PyDate
  hour : ℕ
  minute : ℕ
  second : ℕ
  micro : ℕ
deriving DecidableEq

def PyDateTime.Valid (t : PyDateTime) : Prop :=
  t.date.Valid ∧ t.hour < 24 ∧ t.minute < 60 ∧ t.second < 60 ∧ t.micro < 1000000

instance (t : PyDateTime) : Decidable t.Valid := by unfold PyDateTime.Valid; infer_instance

/-- `date.isoformat()`: `YYYY-MM-DD`. -/
def isoDateChars (d : PyDate) : List Char :=
  pad4 d.year ++ '-' :: pad2 d.month ++ '-' :: pad2 d.day

def isoDate (d : PyDate) : String := String.mk (isoDateChars d)

/-- `datetime.isoformat()`: `YYYY-MM-DDTHH:MM:SS[.ffffff]`
(microseconds are printed only when non-zero). -/
def isoDateTimeChars (t : PyDateTime) : List Char :=
  isoDateChars t.date ++ 'T' :: pad2 t.hour ++ ':' :: pad2 t.minute ++ ':' :: pad2 t.second
    ++ (if t.micro = 0 then [] else '.' :: pad6 t.micro)

def isoDateTime (t : PyDateTime) : String := String.mk (isoDateTimeChars t)

/-- Read exactly `k` decimal digits; fail otherwise. -/
def takeDigits : ℕ → List Char → Option (ℕ × List Char)
  | 0, cs => some (0, cs)
  | _ + 1, [] => none
  | k + 1, c :: cs =>
    if c.isDigit then
      (takeDigits k cs).map (fun p => ((c.toNat - 48) * 10 ^ k + p.1, p.2))
    else none

/-- `date.fromisoformat` on the canonical `YYYY-MM-DD` form, including the
calendar validity check (it raises `ValueError` on anything else, modelled
as `none`). -/
def parseIsoDate (s : String) : Option PyDate :=
  match takeDigits 4 s.data with
  | none => none
  | some (y, rest) =>
    match rest with
    | '-' :: rest2 =>
      match takeDigits 2 rest2 with
      | none => none
      | some (m, rest3) =>
        match rest3 with
        | '-' :: rest4 =>
          match takeDigits 2 rest4 with
          | none => none
          | some (d, rest5) =>
            if rest5 = [] then
              let dt : PyDate := ⟨y, m, d⟩
              if dt.Valid then some dt else none
            else none
        | _ => none
    | _ => none

/-- Parse `HH:MM:SS[.ffffff]` (what `datetime.isoformat` emits). -/
def parseIsoTime (cs : List Char) : Option (ℕ × ℕ × ℕ × ℕ) :=
  match takeDigits 2 cs with
  | none => none
  | some (h, rest) =>
    match rest with
    | ':' :: rest2 =>
      match takeDigits 2 rest2 with
      | none => none
      | some (mi, rest3) =>
        match rest3 with
        | ':' :: rest4 =>
          match takeDigits 2 rest4 with
          | none => none
          | some (sec, rest5) =>
            match rest5 with
            | [] => if h < 24 ∧ mi < 60 ∧ sec < 60 then some (h, mi, sec, 0) else none
            | '.' :: rest6 =>
              match takeDigits 6 rest6 with
              | none => none
              | some (us, rest7) =>
                if rest7 = [] ∧ h < 24 ∧ mi < 60 ∧ sec < 60 then some (h, mi, sec, us)
                else none
            | _ => none
        | _ => none
    | _ => none

/-- `datetime.fromisoformat` on the canonical forms `datetime.isoformat`
emits (bare date, or date `T` time); anything else raises, modelled `none`. -/
def parseIsoDateTime (s : String) : Option PyDateTime :=
  match takeDigits 4 s.data with
  | none => none
  | some (y, rest) =>
    match rest with
    | '-' :: rest2 =>
      match takeDigits 2 rest2 with
      | none => none
      | some (m, rest3) =>
        match rest3 with
        | '-' :: rest4 =>
          match takeDigits 2 rest4 with
          | none => none
          | some (d, rest5) =>
            let dt : PyDate := ⟨y, m, d⟩
            match rest5 with
            | [] => if dt.Valid then some ⟨dt, 0, 0, 0, 0⟩ else none
            | 'T' :: rest6 =>
              match parseIsoTime rest6 with
              | none => none
              | some (h, mi, sec, us) => if dt.Valid then some ⟨dt, h, mi, sec, us⟩ else none
            | _ => none
        | _ => none
    | _ => none

/- ### Python `float(str)` and float formatting, on exact rationals -/

/-- Parse an unsigned decimal mantissa: `digits[.digits]` or `.digits`. -/
def parseMantissa (cs : List Char) : Option (ℚ × List Char) :=
  match cs with
  | [] => none
  | c :: _ =>
    if c.isDigit then
      let (ip, _, rest) := parseDigitsCnt 0 0 cs
      match rest with
      | '.' :: rest2 =>
        let (fp, fc, rest3) := parseDigitsCnt 0 0 rest2
        some ((ip : ℚ) + (fp : ℚ) / 10 ^ fc, rest3)
      | _ => some ((ip : ℚ), rest)
    else if c = '.' then
      let (fp, fc, rest3) := parseDigitsCnt 0 0 cs.tail
      if fc = 0 then none else some ((fp : ℚ) / 10 ^ fc, rest3)
    else none

/-- Parse an optional exponent suffix `e[+-]digits`. -/
def parseExponent (cs : List Char) : Option (ℤ × List Char) :=
  match cs with
  | 'e' :: rest | 'E' :: rest =>
    match rest with
    | '+' :: rest2 =>
      let (e, ec, rest3) := parseDigitsCnt 0 0 rest2
      if ec = 0 then none else some ((e : ℤ), rest3)
    | '-' :: rest2 =>
      let (e, ec, rest3) := parseDigitsCnt 0 0 rest2
      if ec = 0 then none else some (-(e : ℤ), rest3)
    | _ =>
      let (e, ec, rest3) := parseDigitsCnt 0 0 rest
      if ec = 0 then none else some ((e : ℤ), rest3)
  | _ => some (0, cs)

/-- Model of Python `float(s)` for decimal literals: optional surrounding
whitespace, optional sign, decimal mantissa, optional exponent.  Returns
`none` where `float` raises `ValueError` (the model leaves out the rarely
used `inf`/`nan`/underscore forms). -/
def parseFloat (s : String) : Option ℚ :=
  let cs := s.data.dropWhile Char.isWhitespace
  let (sgn, cs2) : ℚ × List Char :=
    match cs with
    | '-' :: rest => (-1, rest)
    | '+' :: rest => (1, rest)
    | _ => (1, cs)
  match parseMantissa cs2 with
  | none => none
  | some (m, rest) =>
    match parseExponent rest with
    | none => none
    | some (e, rest2) =>
      if rest2.dropWhile Char.isWhitespace = [] then some (sgn * m * 10 ^ e) else none

/-- Python `f"{x:.2f}"` (fixed two decimals, rounding half to even). -/
def fmt2 (q : ℚ) : String :=
  let c := roundEven (100 * q)
  if c < 0 then
    String.mk ('-' :: printNat (c.natAbs / 100) ++ '.' :: pad2 (c.natAbs % 100))
  else
    String.mk (printNat (c.natAbs / 100) ++ '.' :: pad2 (c.natAbs % 100))

/-- Multiplicity of `p` in `n` (for extracting powers of 2 and 5). -/
def pCount (p n : ℕ) : ℕ :=
  if h : 2 ≤ p ∧ n ≠ 0 ∧ n % p = 0 then pCount p (n / p) + 1 else 0
decreasing_by exact Nat.div_lt_self (by omega) (by omega)

/-- Number of decimal digits needed for an exact representation, when the
denominator is of the form `2^a * 5^b` (always at least one digit, the way
`float.__repr__` prints `5.0`); `none` for rationals that are not exact
decimals (no Python float is such a value). -/
def decDigitsOf (d : ℕ) : Option ℕ :=
  let a := pCount 2 d
  let b := pCount 5 d
  if 2 ^ a * 5 ^ b = d then some (max 1 (max a b)) else none

/-- Model of `repr(x)` / `str(x)` for a Python float holding an exact
decimal value: the shortest exact decimal form, with at least one digit
after the point.  (Python switches to exponent notation for very small or
very large magnitudes; the engine never relies on that spelling.) -/
def dumpFloat (q : ℚ) : String :=
  match decDigitsOf q.den with
  | none => "0"
  | some k =>
    let n : ℤ := (q * 10 ^ k).num
    let a : ℕ := n.natAbs
    let body : List Char := printNat (a / 10 ^ k) ++ '.' :: padFrac k (a % 10 ^ k)
    if n < 0 then String.mk ('-' :: body) else String.mk body

/-- Model of `repr(n)` / `str(n)` for a Python int. -/
def dumpInt (z : ℤ) : String :=
  if z < 0 then String.mk ('-' :: printNat z.natAbs) else String.mk (printNat z.natAbs)

/- ### JSON values (model of what `json.loads` / `json.dumps` handle) -/

/-- Decoded JSON value.  Integers and floats are kept apart because
`json.loads` produces Python `int` for `1` and `float` for `1.0`. -/
inductive PyJson where
  | null
  | jbool (b : Bool)
  | jint (z : ℤ)
  | jnum (q : ℚ)
  | jstr (s : String)
  | jarr (xs : List PyJson)
  | jobj (kvs : List (String × PyJson))

def lbrace : Char := Char.ofNat 123
def rbrace : Char := Char.ofNat 125

def jsonWs (c : Char) : Bool := c = ' ' || c = '\t' || c = '\n' || c = '\r'

def skipWs (cs : List Char) : List Char := cs.dropWhile jsonWs

def hexVal (c : Char) : Option ℕ :=
  if c.isDigit then some (c.toNat - 48)
  else if 'a' ≤ c ∧ c ≤ 'f' then some (c.toNat - 87)
  else if 'A' ≤ c ∧ c ≤ 'F' then some (c.toNat - 55)
  else none

def parseHex4 : List Char → Option (ℕ × List Char)
  | a :: b :: c :: d :: rest =>
    match hexVal a, hexVal b, hexVal c, hexVal d with
    | some x, some y, some z, some w => some (((x * 16 + y) * 16 + z) * 16 + w, rest)
    | _, _, _, _ => none
  | _ => none

/-- JSON string body parser (after the opening quote), handling the
escape sequences `json` understands, including surrogate pairs.  (A lone
surrogate escape maps to an unusable character here; Python would keep it,
but no dumped payload contains one.) -/
def parseJStr (fuel : ℕ) (acc : List Char) (cs : List Char) : Option (String × List Char) :=
  match fuel, cs with
  | 0, _ => none
  | _, [] => none
  | f + 1, c :: rest =>
    if c = '"' then some (String.mk acc.reverse, rest)
    else if c = '\\' then
      match rest with
      | 'u' :: rest2 =>
        match parseHex4 rest2 with
        | none => none
        | some (n, rest3) =>
          if 0xD800 ≤ n ∧ n ≤ 0xDBFF then
            match rest3 with
            | '\\' :: 'u' :: rest4 =>
              match parseHex4 rest4 with
              | none => none
              | some (m, rest5) =>
                if 0xDC00 ≤ m ∧ m ≤ 0xDFFF then
                  parseJStr f (Char.ofNat (0x10000 + (n - 0xD800) * 0x400 + (m - 0xDC00)) :: acc) rest5
                else parseJStr f (Char.ofNat n :: acc) rest3
            | _ => parseJStr f (Char.ofNat n :: acc) rest3
          else parseJStr f (Char.ofNat n :: acc) rest3
      | e :: rest2 =>
        let c? : Option Char :=
          if e = '"' then some '"' else if e = '\\' then some '\\'
          else if e = '/' then some '/' else if e = 'b' then some '\x08'
          else if e = 'f' then some '\x0c' else if e = 'n' then some '\n'
          else if e = 'r' then some '\r' else if e = 't' then some '\t' else none
        match c? with
        | none => none
        | some ch => parseJStr f (ch :: acc) rest2
      | [] => none
    else if c.toNat < 0x20 then none
    else parseJStr f (c :: acc) rest

mutual

/-- Recursive-descent JSON value parser (fuel-bounded). -/
def jsonVal (fuel : ℕ) (cs : List Char) : Option (PyJson × List Char) :=
  match fuel with
  | 0 => none
  | f + 1 =>
    match skipWs cs with
    | [] => none
    | c :: rest =>
      if c = '"' then
        (parseJStr (rest.length + 1) [] rest).map (fun p => (.jstr p.1, p.2))
      else if c = lbrace then jsonObjBody f rest
      else if c = '[' then jsonArrBody f rest
      else if c = 't' then
        match rest with
        | 'r' :: 'u' :: 'e' :: r => some (.jbool true, r)
        | _ => none
      else if c = 'f' then
        match rest with
        | 'a' :: 'l' :: 's' :: 'e' :: r => some (.jbool false, r)
        | _ => none
      else if c = 'n' then
        match rest with
        | 'u' :: 'l' :: 'l' :: r => some (.null, r)
        | _ => none
      else
        let (neg, cs2) := if c = '-' then (true, rest) else (false, c :: rest)
        if (cs2.head?.map Char.isDigit).getD false then
          let (ip, _, r1) := parseDigitsCnt 0 0 cs2
          match r1 with
          | '.' :: r2 =>
            let (fp, fc, r3) := parseDigitsCnt 0 0 r2
            if fc = 0 then none
            else
              match parseExponent r3 with
              | none => none
              | some (e, r4) =>
                some (.jnum ((if neg then -1 else 1) * ((ip : ℚ) + (fp : ℚ) / 10 ^ fc) * 10 ^ e), r4)
          | 'e' :: _ =>
            match parseExponent r1 with
            | none => none
            | some (e, r4) => some (.jnum ((if neg then -1 else 1) * (ip : ℚ) * 10 ^ e), r4)
          | 'E' :: _ =>
            match parseExponent r1 with
            | none => none
            | some (e, r4) => some (.jnum ((if neg then -1 else 1) * (ip : ℚ) * 10 ^ e), r4)
          | _ => some (.jint ((if neg then -1 else 1) * (ip : ℤ)), r1)
        else none

/-- Array contents after `[`. -/
def jsonArrBody (fuel : ℕ) (cs : List Char) : Option (PyJson × List Char) :=
  match fuel with
  | 0 => none
  | f + 1 =>
    match skipWs cs with
    | ']' :: rest => some (.jarr [], rest)
    | cs2 =>
      (jsonItems f cs2).map (fun p => (.jarr p.1, p.2))

/-- One-or-more comma-separated array items, then `]`. -/
def jsonItems (fuel : ℕ) (cs : List Char) : Option (List PyJson × List Char) :=
  match fuel with
  | 0 => none
  | f + 1 =>
    match jsonVal f cs with
    | none => none
    | some (v, rest) =>
      match skipWs rest with
      | ',' :: rest2 => (jsonItems f rest2).map (fun p => (v :: p.1, p.2))
      | ']' :: rest2 => some ([v], rest2)
      | _ => none

/-- Object contents after the opening brace. -/
def jsonObjBody (fuel : ℕ) (cs : List Char) : Option (PyJson × List Char) :=
  match fuel with
  | 0 => none
  | f + 1 =>
    match skipWs cs with
    | c :: rest =>
      if c = rbrace then some (.jobj [], rest)
      else (jsonMembers f (c :: rest)).map (fun p => (.jobj p.1, p.2))
    | [] => none

/-- One-or-more `"key": value` members, then the closing brace. -/
def jsonMembers (fuel : ℕ) (cs : List Char) : Option (List (String × PyJson) × List Char) :=
  match fuel with
  | 0 => none
  | f + 1 =>
    match skipWs cs with
    | '"' :: rest =>
      match parseJStr (rest.length + 1) [] rest with
      | none => none
      | some (k, rest2) =>
        match skipWs rest2 with
        | ':' :: rest3 =>
          match jsonVal f rest3 with
          | none => none
          | some (v, rest4) =>
            match skipWs rest4 with
            | ',' :: rest5 => (jsonMembers f rest5).map (fun p => ((k, v) :: p.1, p.2))
            | c :: rest5 => if c = rbrace then some ([(k, v)], rest5) else none
            | [] => none
        | _ => none
    | _ => none

end

/-- Model of `json.loads`: parse one JSON document, no trailing garbage.
(`none` = `json.JSONDecodeError`.) -/
def jsonParse (s : String) : Option PyJson :=
  match jsonVal (3 * s.data.length + 8) s.data with
  | none => none
  | some (v, rest) => if skipWs rest = [] then some v else none

/- ### Domain models (from `src/logic.py`) -/

/-- `SharedSplit` dataclass: a participant and their share of a shared
expense.  The amount slot holds a float or `None` in the source. -/
structure SharedSplit where
  name : String
  amount : Option ℚ
deriving DecidableEq

/- ### Python coercions of decoded JSON values -/

/-- `repr` of a decoded JSON value (single-quoted strings, `None`,
`True`/`False`); only the scalar cases ever matter to the engine. -/
def pyRepr (fuel : ℕ) (j : PyJson) : String :=
  match fuel with
  | 0 => ""
  | f + 1 =>
    match j with
    | .null => "None"
    | .jbool b => if b then "True" else "False"
    | .jint z => dumpInt z
    | .jnum q => dumpFloat q
    | .jstr s => "'" ++ s ++ "'"
    | .jarr xs => "[" ++ String.intercalate ", " (xs.map (pyRepr f)) ++ "]"
    | .jobj kvs =>
      String.mk [lbrace] ++
        String.intercalate ", " (kvs.map (fun p => "'" ++ p.1 ++ "': " ++ pyRepr f p.2)) ++
        String.mk [rbrace]

/-- Python `str()` of a decoded JSON value. -/
def pyStr (j : PyJson) : String :=
  match j with
  | .jstr s => s
  | .null => "None"
  | .jbool b => if b then "True" else "False"
  | .jint z => dumpInt z
  | .jnum q => dumpFloat q
  | j => pyRepr 64 j

/-- Python `float()` of a decoded JSON value; `none` where it raises
(`TypeError` on containers and `None`, `ValueError` on bad strings). -/
def jsonToFloat (j : PyJson) : Option ℚ :=
  match j with
  | .jint z => some (z : ℚ)
  | .jnum q => some q
  | .jbool b => some (if b then 1 else 0)
  | .jstr s => parseFloat s
  | .null => none
  | .jarr _ => none
  | .jobj _ => none

/-- `dict.get` on a JSON object decoded by `json.loads`: with duplicate
keys the last binding wins. -/
def objGet (kvs : List (String × PyJson)) (k : String) : Option PyJson :=
  (kvs.reverse.find? (fun p => p.1 == k)).map (·.2)

/- ### Shared-split (de)serialization (`src/logic.py` lines 47-77) -/

/-- Lower-case hex digit, as `json.dumps` emits in escapes. -/
def hexDigitL (d : ℕ) : Char :=
  if d < 10 then Char.ofNat (48 + d) else Char.ofNat (87 + d)

def hex4Lower (n : ℕ) : List Char :=
  [hexDigitL (n / 4096 % 16), hexDigitL (n / 256 % 16), hexDigitL (n / 16 % 16),
    hexDigitL (n % 16)]

/-- `json.dumps` string escaping with its default `ensure_ascii=True`:
printable ASCII is literal, everything else is escaped. -/
def dumpJChar (c : Char) : List Char :=
  if c = '"' then ['\\', '"']
  else if c = '\\' then ['\\', '\\']
  else if c = '\n' then ['\\', 'n']
  else if c = '\t' then ['\\', 't']
  else if c = '\r' then ['\\', 'r']
  else if c = '\x08' then ['\\', 'b']
  else if c = '\x0c' then ['\\', 'f']
  else if 0x20 ≤ c.toNat ∧ c.toNat ≤ 0x7e then [c]
  else if c.toNat < 0x10000 then '\\' :: 'u' :: hex4Lower c.toNat
  else
    '\\' :: 'u' :: hex4Lower (0xD800 + (c.toNat - 0x10000) / 0x400) ++
      '\\' :: 'u' :: hex4Lower (0xDC00 + (c.toNat - 0x10000) % 0x400)

def dumpJStr (s : String) : List Char :=
  '"' :: (s.data.map dumpJChar).flatten ++ ['"']

/-- One split as `json.dumps` renders it:
a brace-delimited `"name": ..., "amount": ...` object. -/
def splitPayload (sp : SharedSplit) : List Char :=
  lbrace :: "\"name\": ".data ++ dumpJStr sp.name ++ ", \"amount\": ".data ++
    (match sp.amount with
      | none => "null".data
      | some q => (dumpFloat q).data) ++ [rbrace]

def sepJoin : List (List Char) → List Char
  | [] => []
  | [x] => x
  | x :: y :: rest => x ++ ',' :: ' ' :: sepJoin (y :: rest)

/-- `_serialize_shared_splits`: empty string for no splits, otherwise the
`json.dumps` rendering of the `[(name, amount)]` payload. -/
def _serialize_shared_splits (splits : List SharedSplit) : String :=
  if splits.isEmpty then ""
  else String.mk ('[' :: sepJoin (splits.map splitPayload) ++ [']'])

/-- One iteration of the `for item in data` loop of
`_deserialize_shared_splits`: `none` means the item is skipped. -/
def splitFromItem (j : PyJson) : Option SharedSplit :=
  match j with
  | .jobj kvs =>
    let name := pyStrip (pyStr ((objGet kvs "name").getD (.jstr "")))
    if name = "" then none
    else
      let araw := (objGet kvs "amount").getD .null
      let amt : Option ℚ :=
        match araw with
        | .null => none
        | .jstr s => if s = "" then none else parseFloat s
        | other => jsonToFloat other
      some ⟨name, amt⟩
  | _ => none

/-- `_deserialize_shared_splits`.  The `try` only protects `json.loads`;
iterating a non-iterable decoded value (a number, boolean or `None`)
raises `TypeError` outside it, modelled as `.error`. -/
def _deserialize_shared_splits (raw : String) : Except Unit (List SharedSplit) :=
  if raw = "" then .ok []
  else
    match jsonParse raw with
    | none => .ok []
    | some j =>
      match j with
      | .jarr items => .ok (items.filterMap splitFromItem)
      | .jstr _ => .ok []
      | .jobj _ => .ok []
      | _ => .error ()

/-- The JSON value that `json.loads` recovers from one serialized split
(used to state the round-trip theorems). -/
def payloadJson (sp : SharedSplit) : PyJson :=
  .jobj [("name", .jstr sp.name),
    ("amount", match sp.amount with | none => .null | some q => .jnum q)]

/-- `Transaction` dataclass (`src/logic.py` lines 26-44). -/
structure Transaction where
  id : String
  timestamp : PyDateTime
  tx_type : String
  sub_type : String
  amount : ℚ
  date : PyDate
  description : String := ""
  category : String := ""
  device : String := ""
  location : String := ""
  occasion : String := ""
  effects_balance : Bool := true
  linked_tx_id : String := ""
  shared_flag : Bool := false
  shared_splits : List SharedSplit := []
  shared_notes : String := ""
deriving DecidableEq

/- ### Configuration constants (`src/logic.py` lines 81-102) -/

def ALLOWED_TX_TYPES : List String := ["income", "expense", "transfer"]

def ALLOWED_DEVICES : List String :=
  ["UPI", "CREDIT_CARD", "CREDIT_CARD_UPI", "CASH", "DEBIT", "BANK_TRANSFER", "OTHER",
    "SAVINGS_WITHDRAW", "DEBT_BORROWED"]

def DEBT_CLEARED_CATEGORY : String := "Debt Cleared"

def CREDIT_CARD_DEVICES : List String := ["CREDIT_CARD", "CREDIT_CARD_UPI"]

def DEFAULT_CREDIT_CARD_EXPENSE_SUB_TYPE : String := "credit_card_expense"

def CREDIT_CARD_PAYMENT_SUB_TYPE : String := "credit_card_payment"

def DEFAULT_CREDIT_CARD_DEBT_SUB_TYPE : String := "credit_card_debt"

def DEFAULT_SUB_TYPE : String := "regular"

/- ### Row codec (`transaction_from_row` / `transaction_to_row`) -/

/-- A persisted row: the 16 schema fields, each possibly missing.  The
source reads rows as string-to-string mappings; unknown extra keys are
never consulted, so they are not modelled. -/
structure Row where
  id : Option String := none
  timestamp : Option String := none
  tx_type : Option String := none
  sub_type : Option String := none
  amount : Option String := none
  date : Option String := none
  description : Option String := none
  category : Option String := none
  device : Option String := none
  location : Option String := none
  occasion : Option String := none
  effects_balance : Option String := none
  linked_tx_id : Option String := none
  shared_flag : Option String := none
  shared_splits : Option String := none
  shared_notes : Option String := none
deriving DecidableEq

instance {ε α : Type} [DecidableEq ε] [DecidableEq α] : DecidableEq (Except ε α) := fun x y =>
  match x, y with
  | .ok a, .ok b =>
    if h : a = b then .isTrue (h ▸ rfl) else .isFalse (fun c => h (Except.ok.inj c))
  | .error a, .error b =>
    if h : a = b then .isTrue (h ▸ rfl) else .isFalse (fun c => h (Except.error.inj c))
  | .ok _, .error _ => .isFalse (fun c => Except.noConfusion c)
  | .error _, .ok _ => .isFalse (fun c => Except.noConfusion c)

/-- The local `get(key, default)` helper of `transaction_from_row`. -/
def rowGet (v : Option String) (dflt : String) : String := v.getD dflt

/-- `transaction_from_row`.  The ambient values Python pulls from the
environment are passed explicitly: `freshId` for `uuid.uuid4().hex`,
`now` for `datetime.utcnow()`, `today` for `date.today()`.  The result is
`.error` exactly where the Python function raises (the shared-splits
`TypeError` path, see `_deserialize_shared_splits`). -/
def transaction_from_row (freshId : String) (now : PyDateTime) (today : PyDate)
    (row : Row) : Except Unit Transaction := do
  let affects_balance_raw := pyLower (rowGet row.effects_balance "True")
  let affects_balance := ["true", "1", "yes"].contains affects_balance_raw
  let timestamp := (parseIsoDateTime (rowGet row.timestamp "")).getD now
  let date_value := (parseIsoDate (rowGet row.date "")).getD today
  let amount_value := (parseFloat (rowGet row.amount "0")).getD 0
  let shared_flag_raw := pyLower (rowGet row.shared_flag "False")
  let shared_flag := ["true", "1", "yes"].contains shared_flag_raw
  let shared_splits ← _deserialize_shared_splits (row.shared_splits.getD "")
  let shared_notes := row.shared_notes.getD ""
  return {
    id := rowGet row.id freshId
    timestamp := timestamp
    tx_type := rowGet row.tx_type "expense"
    sub_type := rowGet row.sub_type DEFAULT_SUB_TYPE
    amount := amount_value
    date := date_value
    description := rowGet row.description ""
    category := rowGet row.category ""
    device := rowGet row.device "OTHER"
    location := rowGet row.location ""
    occasion := rowGet row.occasion ""
    effects_balance := affects_balance
    linked_tx_id := rowGet row.linked_tx_id ""
    shared_flag := shared_flag && !shared_splits.isEmpty
    shared_splits := shared_splits
    shared_notes := shared_notes
  }

/-- `transaction_to_row`. -/
def transaction_to_row (tx : Transaction) : Row where
  id := some tx.id
  timestamp := some (isoDateTime tx.timestamp)
  tx_type := some tx.tx_type
  sub_type := some tx.sub_type
  amount := some (fmt2 tx.amount)
  date := some (isoDate tx.date)
  description := some tx.description
  category := some tx.category
  device := some tx.device
  location := some tx.location
  occasion := some tx.occasion
  effects_balance := some (if tx.effects_balance then "True" else "False")
  linked_tx_id := some tx.linked_tx_id
  shared_flag := some (if tx.shared_flag && !tx.shared_splits.isEmpty then "True" else "False")
  shared_splits := some (_serialize_shared_splits tx.shared_splits)
  shared_notes := some tx.shared_notes

/- ### Validation (`validate_transaction`, lines 194-212) -/

/-- `validate_transaction`.  The date check re-parses
`tx.date.isoformat()`; a real date object always passes it.  The function
reads but never writes the transaction, so purity is inherent here. -/
def validate_transaction (tx : Transaction) : Bool × List String :=
  let errors : List String :=
    (if ALLOWED_TX_TYPES.contains tx.tx_type then []
      else ["Unsupported transaction type: " ++ tx.tx_type]) ++
    (if tx.device ≠ "" && !ALLOWED_DEVICES.contains tx.device then
      ["Unsupported device: " ++ tx.device] else []) ++
    (if tx.amount ≤ 0 then ["Amount must be greater than zero"] else []) ++
    (match parseIsoDate (isoDate tx.date) with
      | some _ => []
      | none => ["Invalid date: " ++ isoDate tx.date])
  (errors.isEmpty, errors)

/- ### Core computations (`src/logic.py` lines 216-442) -/

/-- One iteration of the `compute_balance` loop. -/
def balanceStep (b : ℚ) (tx : Transaction) : ℚ :=
  if !tx.effects_balance then b
  else if tx.sub_type = DEFAULT_CREDIT_CARD_EXPENSE_SUB_TYPE ∨
      tx.sub_type = DEFAULT_CREDIT_CARD_DEBT_SUB_TYPE then b
  else if tx.device = "DEBT_BORROWED" then b
  else if tx.tx_type = "income" then b + tx.amount
  else if tx.tx_type = "expense" then b - tx.amount
  else b

/-- `compute_balance`. -/
def compute_balance (transactions : List Transaction) (initial_balance : ℚ) : ℚ :=
  round2 (transactions.foldl balanceStep initial_balance)

/-- `get_billing_cycle`: despite its docstring saying 19th-to-18th in one
variant, this code builds the range 19th of the cycle month through the
20th of the next month.  `date.replace` never raises here because every
month has at least 20 days. -/
def get_billing_cycle (tx_date : PyDate) : PyDate × PyDate :=
  if tx_date.day ≥ 19 then
    let cycle_start : PyDate := { tx_date with day := 19 }
    let cycle_end : PyDate :=
      if tx_date.month = 12 then ⟨tx_date.year + 1, 1, 20⟩
      else ⟨tx_date.year, tx_date.month + 1, 20⟩
    (cycle_start, cycle_end)
  else
    let cycle_start : PyDate :=
      if tx_date.month = 1 then ⟨tx_date.year - 1, 12, 19⟩
      else ⟨tx_date.year, tx_date.month - 1, 19⟩
    (cycle_start, { tx_date with day := 20 })

def PAYMENT_TERMS : List String := ["payment", "bill", "paid", "clear", "settle", "repay"]

def CC_DESC_TERMS : List String := ["credit card", "creditcard", "cc "]

/-- The per-cycle `expenses`/`payments` buckets of
`compute_outstanding_debt` (its dict also stores an `is_current` flag,
which only feeds print statements and is not modelled). -/
def cycleEnsure : List ((PyDate × PyDate) × (ℚ × ℚ)) → (PyDate × PyDate) →
    List ((PyDate × PyDate) × (ℚ × ℚ))
  | [], k => [(k, (0, 0))]
  | (k', v) :: rest, k =>
    if k' = k then (k', v) :: rest else (k', v) :: cycleEnsure rest k

def cycleBump (isPayment : Bool) (a : ℚ) :
    List ((PyDate × PyDate) × (ℚ × ℚ)) → (PyDate × PyDate) →
    List ((PyDate × PyDate) × (ℚ × ℚ))
  | [], k => [(k, if isPayment then (0, a) else (a, 0))]
  | (k', v) :: rest, k =>
    if k' = k then
      (k', if isPayment then (v.1, v.2 + a) else (v.1 + a, v.2)) :: rest
    else (k', v) :: cycleBump isPayment a rest k

/-- The mutable state of the first pass of `compute_outstanding_debt`. -/
structure CCState where
  cycles : List ((PyDate × PyDate) × (ℚ × ℚ))
  borrowed : ℚ

/-- One iteration of the transaction loop of `compute_outstanding_debt`. -/
def ccStep (st : CCState) (tx : Transaction) : CCState :=
  if tx.tx_type ≠ "expense" then st
  else
    let device := pyUpper tx.device
    let description := pyLower tx.description
    let category := pyLower tx.category
    let amount := |tx.amount|
    let key := get_billing_cycle tx.date
    let cycles := cycleEnsure st.cycles key
    if device = "DEBT_BORROWED" then
      if !(["payment", "cleared"].any (fun t => strIn t description)) then
        ⟨cycles, st.borrowed + amount⟩
      else ⟨cycles, st.borrowed⟩
    else if strIn (pyLower DEBT_CLEARED_CATEGORY) category then
      ⟨cycles, max 0 (st.borrowed - min st.borrowed amount)⟩
    else
      let is_credit_card :=
        CREDIT_CARD_DEVICES.contains device ||
        CC_DESC_TERMS.any (fun t => strIn t description) ||
        (strIn "credit" category && strIn "card" category)
      if !is_credit_card then
        if ["borrowed", "loan"].any (fun t => strIn t category) then
          ⟨cycles, st.borrowed + amount⟩
        else ⟨cycles, st.borrowed⟩
      else if PAYMENT_TERMS.any (fun t => strIn t description) then
        ⟨cycleBump true amount cycles key, st.borrowed⟩
      else
        ⟨cycleBump false amount cycles key, st.borrowed⟩

def sumExpenses (m : List ((PyDate × PyDate) × (ℚ × ℚ))) : ℚ :=
  m.foldl (fun a p => a + p.2.1) 0

def sumPayments (m : List ((PyDate × PyDate) × (ℚ × ℚ))) : ℚ :=
  m.foldl (fun a p => a + p.2.2) 0

/-- `compute_outstanding_debt`.  After the loop the function only uses
`all_expenses` and `all_payments` (the across-cycle sums) and the borrowed
running total; the per-cycle breakdown, the current-cycle comparison
against `date.today()` and the `current_cycle_debt` value feed print
statements only, so the result does not depend on the ambient date. -/
def compute_outstanding_debt (transactions : List Transaction) : ℚ × ℚ :=
  let st := transactions.foldl ccStep ⟨[], 0⟩
  (round2 (max 0 (sumExpenses st.cycles - sumPayments st.cycles)), round2 st.borrowed)

/-- Abstract view of the debt pass: just the three running sums.  The
lemma `debtState_eq` below ties it to the per-cycle state. -/
structure DebtState where
  expenses : ℚ
  payments : ℚ
  borrowed : ℚ
deriving DecidableEq

/-- `ccStep` with the per-cycle map collapsed to its column sums. -/
def debtStep (st : DebtState) (tx : Transaction) : DebtState :=
  if tx.tx_type ≠ "expense" then st
  else
    let device := pyUpper tx.device
    let description := pyLower tx.description
    let category := pyLower tx.category
    let amount := |tx.amount|
    if device = "DEBT_BORROWED" then
      if !(["payment", "cleared"].any (fun t => strIn t description)) then
        { st with borrowed := st.borrowed + amount }
      else st
    else if strIn (pyLower DEBT_CLEARED_CATEGORY) category then
      { st with borrowed := max 0 (st.borrowed - min st.borrowed amount) }
    else
      let is_credit_card :=
        CREDIT_CARD_DEVICES.contains device ||
        CC_DESC_TERMS.any (fun t => strIn t description) ||
        (strIn "credit" category && strIn "card" category)
      if !is_credit_card then
        if ["borrowed", "loan"].any (fun t => strIn t category) then
          { st with borrowed := st.borrowed + amount }
        else st
      else if PAYMENT_TERMS.any (fun t => strIn t description) then
        { st with payments := st.payments + amount }
      else
        { st with expenses := st.expenses + amount }

def debtState (transactions : List Transaction) : DebtState :=
  transactions.foldl debtStep ⟨0, 0, 0⟩

/- ### Insertion-ordered dictionaries (Python `dict` over string keys) -/

def alGet (m : List (String × ℚ)) (k : String) : Option ℚ :=
  (m.find? (fun p => p.1 == k)).map (·.2)

/-- `d[k] = v`: overwrite in place, append a fresh key at the end. -/
def alSet : List (String × ℚ) → String → ℚ → List (String × ℚ)
  | [], k, v => [(k, v)]
  | (k', v') :: rest, k, v =>
    if k' = k then (k', v) :: rest else (k', v') :: alSet rest k v

/-- `d[k] = d.get(k, 0.0) + v`. -/
def alAdd (m : List (String × ℚ)) (k : String) (v : ℚ) : List (String × ℚ) :=
  alSet m k ((alGet m k).getD 0 + v)

/-- `sum(d.values())`. -/
def alSum (m : List (String × ℚ)) : ℚ := m.foldl (fun a p => a + p.2) 0

/- ### Shared-expense allocation (`compute_shared_allocations`, lines 491-538) -/

/-- One iteration of the first loop of `compute_shared_allocations`. -/
def gatherStep (st : List (String × ℚ) × List String) (sp : SharedSplit) :
    List (String × ℚ) × List String :=
  let name := pyStrip sp.name
  if name = "" then st
  else
    match sp.amount with
    | none => (st.1, st.2 ++ [name])
    | some a => (alAdd st.1 name (round2 |a|), st.2)

/-- First loop of `compute_shared_allocations`: explicit allocations plus
the list of unspecified participants, in iteration order. -/
def gatherSplits (splits : List SharedSplit) : List (String × ℚ) × List String :=
  splits.foldl gatherStep ([], [])

/-- Second loop: hand `round(base_share, 2)` to everyone except the last
unspecified participant, who absorbs the remainder. -/
def distributeRemaining (remaining base : ℚ) :
    List (String × ℚ) → ℚ → List String → List (String × ℚ)
  | alloc, _, [] => alloc
  | alloc, distributed, [n] => alAdd alloc n (round2 (max (remaining - distributed) 0))
  | alloc, distributed, n :: n2 :: rest =>
    distributeRemaining remaining base (alAdd alloc n (round2 base))
      (distributed + round2 base) (n2 :: rest)

/-- `compute_shared_allocations`.  (The `count == 0` guard inside the
source is dead code: the branch is only reached when the unspecified list
is non-empty.) -/
def compute_shared_allocations (tx : Transaction) : List (String × ℚ) :=
  if !tx.shared_flag || tx.shared_splits.isEmpty then []
  else
    let total_amount := normalize_amount tx.amount
    let (explicit_allocations, unspecified_participants) := gatherSplits tx.shared_splits
    let specified_total := alSum explicit_allocations
    let remaining := max (round2 (total_amount - specified_total)) 0
    if unspecified_participants.isEmpty then explicit_allocations
    else
      let count := unspecified_participants.length
      let base_share := if remaining > 0 then remaining / (count : ℚ) else 0
      distributeRemaining remaining base_share explicit_allocations 0 unspecified_participants

/- ### Shared-expense summary (`summarize_shared_expenses`, lines 541-597) -/

/-- Body of the transaction loop of `summarize_shared_expenses`. -/
def summarizeStep (pk ck : Option String)
    (st : List (String × ℚ) × List (Transaction × List (String × ℚ)))
    (tx : Transaction) :
    List (String × ℚ) × List (Transaction × List (String × ℚ)) :=
  if !tx.shared_flag then st
  else if !(tx.tx_type = "expense" ∨ tx.tx_type = "income") then st
  else
    let category_name := pyLower (pyStrip tx.category)
    let skipCat : Bool := match ck with | some k => category_name ≠ k | none => false
    if skipCat then st
    else
      let allocations := compute_shared_allocations tx
      if allocations.isEmpty then st
      else
        let sign : ℚ :=
          if tx.device = "DEBT_BORROWED" then -1
          else if tx.tx_type = "expense" then 1 else -1
        let filtered? : Option (List (String × ℚ)) :=
          match pk with
          | none => some allocations
          | some key =>
            match allocations.reverse.find? (fun p => pyLower p.1 == key) with
            | none => none
            | some p => some [(p.1, (alGet allocations p.1).getD 0)]
        match filtered? with
        | none => st
        | some filtered =>
          let summary := filtered.foldl
            (fun s p => alSet s p.1 (round2 ((alGet s p.1).getD 0 + sign * p.2))) st.1
          (summary, st.2 ++ [(tx, allocations)])

/-- `summarize_shared_expenses` (filters passed as `Option`, Python
`None` being `none`). -/
def summarize_shared_expenses (transactions : List Transaction)
    (participant_filter category_filter : Option String) :
    List (String × ℚ) × List (Transaction × List (String × ℚ)) :=
  let toKey : Option String → Option String := fun f =>
    match f with
    | some s => if pyStrip s = "" then none else some (pyLower (pyStrip s))
    | none => none
  let pk := toKey participant_filter
  let ck := toKey category_filter
  let (summary, details) := transactions.foldl (summarizeStep pk ck) ([], [])
  (summary.filter (fun p => (1 : ℚ) / 200 ≤ |p.2|), details)

/- ### Transaction factories (`src/logic.py` lines 600-805) -/

/-- `create_expense_transaction`; `txId` stands for the generated
`uuid4` hex and `ts` for `datetime.utcnow()`. -/
def create_expense_transaction (txId : String) (ts : PyDateTime) (amount : ℚ)
    (date_value : PyDate) (description category device location occasion : String)
    (sub_type : String) (effects_balance : Bool) (shared_flag : Bool)
    (shared_splits : List SharedSplit) (shared_notes : String) : Transaction :=
  let normalized_amount := normalize_amount amount
  let cleaned_device0 := if device ≠ "" then pyUpper device else "OTHER"
  let cleaned_device :=
    if ALLOWED_DEVICES.contains cleaned_device0 then cleaned_device0 else "OTHER"
  { id := txId
    timestamp := ts
    tx_type := "expense"
    sub_type := sub_type
    amount := normalized_amount
    date := date_value
    description := description
    category := category
    device := cleaned_device
    location := location
    occasion := occasion
    effects_balance := effects_balance
    linked_tx_id := ""
    shared_flag := shared_flag && !shared_splits.isEmpty
    shared_splits := shared_splits
    shared_notes := if shared_flag && !shared_splits.isEmpty then shared_notes else "" }

/-- `create_income_transaction`. -/
def create_income_transaction (txId : String) (ts : PyDateTime) (amount : ℚ)
    (date_value : PyDate) (description category device location occasion : String)
    (sub_type : String) (effects_balance : Bool) (shared_flag : Bool)
    (shared_splits : List SharedSplit) (shared_notes : String) : Transaction :=
  let normalized_amount := normalize_amount amount
  let cleaned_device0 := if device ≠ "" then pyUpper device else "OTHER"
  let cleaned_device :=
    if ALLOWED_DEVICES.contains cleaned_device0 then cleaned_device0 else "OTHER"
  { id := txId
    timestamp := ts
    tx_type := "income"
    sub_type := sub_type
    amount := normalized_amount
    date := date_value
    description := description
    category := category
    device := cleaned_device
    location := location
    occasion := occasion
    effects_balance := effects_balance
    linked_tx_id := ""
    shared_flag := shared_flag && !shared_splits.isEmpty
    shared_splits := shared_splits
    shared_notes := if shared_flag && !shared_splits.isEmpty then shared_notes else "" }

/-- `link_transactions`; `freshLink` stands for the generated hex id. -/
def link_transactions (parent child : Transaction) (freshLink : String) :
    Transaction × Transaction :=
  let link_id :=
    if parent.linked_tx_id ≠ "" then parent.linked_tx_id
    else if child.linked_tx_id ≠ "" then child.linked_tx_id
    else freshLink
  ({ parent with linked_tx_id := link_id }, { child with linked_tx_id := link_id })

/-- `create_credit_card_expense`: the linked
(`credit_card_expense` expense, `credit_card_debt` income) pair, both with
`effects_balance = false`. -/
def create_credit_card_expense (expenseId debtId freshLink : String) (ts : PyDateTime)
    (amount : ℚ) (date_value : PyDate) (description category device location occasion : String)
    (expense_sub_type debt_sub_type : String) (shared_flag : Bool)
    (shared_splits : List SharedSplit) (shared_notes : String) :
    Transaction × Transaction :=
  let normalized_amount := normalize_amount amount
  let normalized_device0 := if device ≠ "" then pyUpper device else "OTHER"
  let normalized_device :=
    if CREDIT_CARD_DEVICES.contains normalized_device0 then normalized_device0
    else "CREDIT_CARD"
  let expense_tx := create_expense_transaction expenseId ts normalized_amount date_value
    description category normalized_device location occasion expense_sub_type false
    shared_flag shared_splits shared_notes
  let debt_tx := create_income_transaction debtId ts normalized_amount date_value
    ("Debt for: " ++ description) "Debt" normalized_device location occasion debt_sub_type
    false false [] ""
  link_transactions expense_tx debt_tx freshLink

/- ------------------------------------------------------------------ -/
/- ## Theorems                                                        -/
/- ------------------------------------------------------------------ -/

/- ### Arithmetic facts about `round2` -/

theorem roundEven_int (k : ℤ) : roundEven (k : ℚ) = k := by
  unfold roundEven
  norm_num [Int.floor_intCast]

theorem round2_cents (k : ℤ) : round2 ((k : ℚ) / 100) = (k : ℚ) / 100 := by
  unfold round2
  have h : (100 : ℚ) * ((k : ℚ) / 100) = (k : ℚ) := by ring
  rw [h, roundEven_int]

/-- `round2 q = q` says `q` is an exact 2-decimal value; every amount the
engine stores is one (amounts are normalized with `round(..., 2)` and
serialized with two decimals). -/
theorem round2_fix_iff (q : ℚ) : round2 q = q ↔ ∃ k : ℤ, q = (k : ℚ) / 100 := by
  constructor
  · intro h
    exact ⟨roundEven (100 * q), h.symm⟩
  · rintro ⟨k, rfl⟩
    exact round2_cents k

theorem round2_fix_add {p q : ℚ} (hp : round2 p = p) (hq : round2 q = q) :
    round2 (p + q) = p + q := by
  obtain ⟨a, rfl⟩ := (round2_fix_iff p).1 hp
  obtain ⟨b, rfl⟩ := (round2_fix_iff q).1 hq
  have h : (a : ℚ) / 100 + (b : ℚ) / 100 = ((a + b : ℤ) : ℚ) / 100 := by push_cast; ring
  rw [h, round2_cents]

theorem round2_fix_neg {q : ℚ} (hq : round2 q = q) : round2 (-q) = -q := by
  obtain ⟨a, rfl⟩ := (round2_fix_iff q).1 hq
  have h : -((a : ℚ) / 100) = ((-a : ℤ) : ℚ) / 100 := by push_cast; ring
  rw [h, round2_cents]

theorem round2_fix_sub {p q : ℚ} (hp : round2 p = p) (hq : round2 q = q) :
    round2 (p - q) = p - q := by
  have h := round2_fix_add hp (round2_fix_neg hq)
  simpa [sub_eq_add_neg] using h

theorem round2_fix_abs {q : ℚ} (hq : round2 q = q) : round2 |q| = |q| := by
  rcases le_or_lt 0 q with h | h
  · rw [abs_of_nonneg h]; exact hq
  · rw [abs_of_neg h]; exact round2_fix_neg hq

theorem round2_round2 (q : ℚ) : round2 (round2 q) = round2 q :=
  round2_cents (roundEven (100 * q))

theorem round2_fix_min {p q : ℚ} (hp : round2 p = p) (hq : round2 q = q) :
    round2 (min p q) = min p q := by
  rcases le_total p q with h | h
  · rw [min_eq_left h]; exact hp
  · rw [min_eq_right h]; exact hq

theorem round2_fix_max {p q : ℚ} (hp : round2 p = p) (hq : round2 q = q) :
    round2 (max p q) = max p q := by
  rcases le_total p q with h | h
  · rw [max_eq_right h]; exact hq
  · rw [max_eq_left h]; exact hp

theorem round2_fix_zero : round2 (0 : ℚ) = 0 := by
  have h : (0 : ℚ) = ((0 : ℤ) : ℚ) / 100 := by norm_num
  rw [h, round2_cents]

theorem roundEven_nonneg (q : ℚ) (h : 0 ≤ q) : 0 ≤ roundEven q := by
  unfold roundEven
  have hf : (0 : ℤ) ≤ ⌊q⌋ := Int.floor_nonneg.2 h
  split
  · omega
  · split
    · omega
    · split <;> omega

theorem round2_nonneg (q : ℚ) (h : 0 ≤ q) : 0 ≤ round2 q := by
  unfold round2
  have h2 := roundEven_nonneg (100 * q) (by positivity)
  positivity

theorem normalize_amount_nonneg (q : ℚ) : 0 ≤ normalize_amount q :=
  round2_nonneg _ (abs_nonneg q)

theorem abs_normalize_amount (q : ℚ) : |normalize_amount q| = normalize_amount q :=
  abs_of_nonneg (normalize_amount_nonneg q)

theorem normalize_amount_fix (q : ℚ) : round2 (normalize_amount q) = normalize_amount q :=
  round2_round2 _

/- ### Digit and ISO-format round-trip lemmas -/

theorem digitChar_isDigit (d : ℕ) (h : d < 10) : (digitChar d).isDigit = true := by
  interval_cases d <;> decide

theorem digitChar_toNat (d : ℕ) (h : d < 10) : (digitChar d).toNat - 48 = d := by
  interval_cases d <;> decide

theorem takeDigits_pad2 (n : ℕ) (h : n < 100) (l : List Char) :
    takeDigits 2 (pad2 n ++ l) = some (n, l) := by
  have h1 : n / 10 % 10 < 10 := Nat.mod_lt _ (by norm_num)
  have h2 : n % 10 < 10 := Nat.mod_lt _ (by norm_num)
  simp only [pad2, List.cons_append, List.nil_append, takeDigits,
    digitChar_isDigit _ h1, digitChar_isDigit _ h2, if_true, Option.map_some]
  simp only [digitChar_toNat _ h1, digitChar_toNat _ h2, Option.map]
  norm_num
  omega

theorem takeDigits_pad4 (n : ℕ) (h : n < 10000) (l : List Char) :
    takeDigits 4 (pad4 n ++ l) = some (n, l) := by
  have h1 : n / 1000 % 10 < 10 := Nat.mod_lt _ (by norm_num)
  have h2 : n / 100 % 10 < 10 := Nat.mod_lt _ (by norm_num)
  have h3 : n / 10 % 10 < 10 := Nat.mod_lt _ (by norm_num)
  have h4 : n % 10 < 10 := Nat.mod_lt _ (by norm_num)
  simp only [pad4, List.cons_append, List.nil_append, takeDigits,
    digitChar_isDigit _ h1, digitChar_isDigit _ h2, digitChar_isDigit _ h3,
    digitChar_isDigit _ h4, if_true, Option.map_some]
  simp only [digitChar_toNat _ h1, digitChar_toNat _ h2, digitChar_toNat _ h3,
    digitChar_toNat _ h4, Option.map]
  norm_num
  omega

theorem takeDigits_pad6 (n : ℕ) (h : n < 1000000) (l : List Char) :
    takeDigits 6 (pad6 n ++ l) = some (n, l) := by
  have h1 : n / 100000 % 10 < 10 := Nat.mod_lt _ (by norm_num)
  have h2 : n / 10000 % 10 < 10 := Nat.mod_lt _ (by norm_num)
  have h3 : n / 1000 % 10 < 10 := Nat.mod_lt _ (by norm_num)
  have h4 : n / 100 % 10 < 10 := Nat.mod_lt _ (by norm_num)
  have h5 : n / 10 % 10 < 10 := Nat.mod_lt _ (by norm_num)
  have h6 : n % 10 < 10 := Nat.mod_lt _ (by norm_num)
  simp only [pad6, List.cons_append, List.nil_append, takeDigits,
    digitChar_isDigit _ h1, digitChar_isDigit _ h2, digitChar_isDigit _ h3,
    digitChar_isDigit _ h4, digitChar_isDigit _ h5, digitChar_isDigit _ h6,
    if_true, Option.map_some]
  simp only [digitChar_toNat _ h1, digitChar_toNat _ h2, digitChar_toNat _ h3,
    digitChar_toNat _ h4, digitChar_toNat _ h5, digitChar_toNat _ h6, Option.map]
  norm_num
  omega

theorem daysInMonth_le (y m : ℕ) : daysInMonth y m ≤ 31 := by
  unfold daysInMonth
  split
  · split <;> omega
  · split <;> omega

theorem takeDigits_pad2_nil (n : ℕ) (h : n < 100) : takeDigits 2 (pad2 n) = some (n, []) := by
  have h2 := takeDigits_pad2 n h []
  simpa using h2

theorem takeDigits_pad6_nil (n : ℕ) (h : n < 1000000) : takeDigits 6 (pad6 n) = some (n, []) := by
  have h2 := takeDigits_pad6 n h []
  simpa using h2

theorem parseIsoDate_isoDate (d : PyDate) (hd : d.Valid) : parseIsoDate (isoDate d) = some d := by
  obtain ⟨y, m, dd⟩ := d
  obtain ⟨h1, h2, h3, h4, h5, h6⟩ := hd
  have hy : y < 10000 := by simp only at h2; omega
  have hm : m < 100 := by simp only at h4; omega
  have hday : dd < 100 := by
    have := daysInMonth_le y m
    simp only at h6
    omega
  have hv : (⟨y, m, dd⟩ : PyDate).Valid := ⟨h1, h2, h3, h4, h5, h6⟩
  simp [parseIsoDate, isoDate, isoDateChars, takeDigits_pad4 _ hy, takeDigits_pad2 _ hm,
    takeDigits_pad2_nil _ hday, hv]

theorem parseIsoDateTime_isoDateTime (t : PyDateTime) (ht : t.Valid) :
    parseIsoDateTime (isoDateTime t) = some t := by
  obtain ⟨⟨y, m, dd⟩, hour, minute, second, micro⟩ := t
  obtain ⟨⟨h1, h2, h3, h4, h5, h6⟩, hh, hmi, hs, hus⟩ := ht
  have hy : y < 10000 := by simp only at h2; omega
  have hm : m < 100 := by simp only at h4; omega
  have hday : dd < 100 := by
    have := daysInMonth_le y m
    simp only at h6
    omega
  have hh' : hour < 100 := by simp only at hh; omega
  have hmi' : minute < 100 := by simp only at hmi; omega
  have hs' : second < 100 := by simp only at hs; omega
  have hv : (⟨y, m, dd⟩ : PyDate).Valid := ⟨h1, h2, h3, h4, h5, h6⟩
  by_cases hz : micro = 0
  · simp [parseIsoDateTime, isoDateTime, isoDateTimeChars, isoDateChars, parseIsoTime, hz,
      takeDigits_pad4 _ hy, takeDigits_pad2 _ hm, takeDigits_pad2 _ hday,
      takeDigits_pad2 _ hh', takeDigits_pad2 _ hmi', takeDigits_pad2_nil _ hs', hv, hh, hmi, hs]
  · simp [parseIsoDateTime, isoDateTime, isoDateTimeChars, isoDateChars, parseIsoTime, hz,
      takeDigits_pad4 _ hy, takeDigits_pad2 _ hm, takeDigits_pad2 _ hday,
      takeDigits_pad2 _ hh', takeDigits_pad2 _ hmi', takeDigits_pad2 _ hs',
      takeDigits_pad6_nil _ hus, hv, hh, hmi, hs]

/- ### Bridging the per-cycle debt state to its running sums -/

theorem foldl_add_init {α : Type} (f : α → ℚ) (m : List α) (a : ℚ) :
    m.foldl (fun s p => s + f p) a = a + m.foldl (fun s p => s + f p) 0 := by
  induction m generalizing a with
  | nil => simp
  | cons p rest ih =>
    simp only [List.foldl_cons]
    rw [ih (a + f p), ih (0 + f p)]
    ring

theorem sumExpenses_cons (p : (PyDate × PyDate) × (ℚ × ℚ)) (m : List ((PyDate × PyDate) × (ℚ × ℚ))) :
    sumExpenses (p :: m) = p.2.1 + sumExpenses m := by
  unfold sumExpenses
  simp only [List.foldl_cons]
  rw [foldl_add_init (fun p => p.2.1) m (0 + p.2.1)]
  ring

theorem sumPayments_cons (p : (PyDate × PyDate) × (ℚ × ℚ)) (m : List ((PyDate × PyDate) × (ℚ × ℚ))) :
    sumPayments (p :: m) = p.2.2 + sumPayments m := by
  unfold sumPayments
  simp only [List.foldl_cons]
  rw [foldl_add_init (fun p => p.2.2) m (0 + p.2.2)]
  ring

theorem sumExpenses_cycleEnsure (m : List ((PyDate × PyDate) × (ℚ × ℚ))) (k : PyDate × PyDate) :
    sumExpenses (cycleEnsure m k) = sumExpenses m := by
  induction m with
  | nil => simp [cycleEnsure, sumExpenses]
  | cons p rest ih =>
    unfold cycleEnsure
    split
    · rfl
    · rw [sumExpenses_cons, sumExpenses_cons, ih]

theorem sumPayments_cycleEnsure (m : List ((PyDate × PyDate) × (ℚ × ℚ))) (k : PyDate × PyDate) :
    sumPayments (cycleEnsure m k) = sumPayments m := by
  induction m with
  | nil => simp [cycleEnsure, sumPayments]
  | cons p rest ih =>
    unfold cycleEnsure
    split
    · rfl
    · rw [sumPayments_cons, sumPayments_cons, ih]

theorem sumExpenses_cycleBump (b : Bool) (a : ℚ) (m : List ((PyDate × PyDate) × (ℚ × ℚ)))
    (k : PyDate × PyDate) :
    sumExpenses (cycleBump b a m k) = sumExpenses m + (if b then 0 else a) := by
  induction m with
  | nil =>
    cases b <;> simp [cycleBump, sumExpenses_cons, sumExpenses]
  | cons p rest ih =>
    unfold cycleBump
    split
    · cases b
      case false =>
        simp [sumExpenses_cons]
        ring
      case true => simp [sumExpenses_cons]
    · rw [sumExpenses_cons, sumExpenses_cons, ih]
      ring

theorem sumPayments_cycleBump (b : Bool) (a : ℚ) (m : List ((PyDate × PyDate) × (ℚ × ℚ)))
    (k : PyDate × PyDate) :
    sumPayments (cycleBump b a m k) = sumPayments m + (if b then a else 0) := by
  induction m with
  | nil =>
    cases b <;> simp [cycleBump, sumPayments_cons, sumPayments]
  | cons p rest ih =>
    unfold cycleBump
    split
    · cases b
      case false => simp [sumPayments_cons]
      case true =>
        simp [sumPayments_cons]
        ring
    · rw [sumPayments_cons, sumPayments_cons, ih]
      ring

/-- Collapsing one loop iteration of `compute_outstanding_debt` to the
three running sums. -/
theorem ccStep_abs (s : CCState) (tx : Transaction) :
    (DebtState.mk (sumExpenses (ccStep s tx).cycles) (sumPayments (ccStep s tx).cycles)
        (ccStep s tx).borrowed)
      = debtStep ⟨sumExpenses s.cycles, sumPayments s.cycles, s.borrowed⟩ tx := by
  unfold ccStep debtStep
  split
  · rfl
  · dsimp only
    split
    · split <;>
        simp [sumExpenses_cycleEnsure, sumPayments_cycleEnsure]
    · split
      · simp [sumExpenses_cycleEnsure, sumPayments_cycleEnsure]
      · split
        · split <;>
            simp [sumExpenses_cycleEnsure, sumPayments_cycleEnsure]
        · split <;>
            simp [sumExpenses_cycleBump, sumPayments_cycleBump,
              sumExpenses_cycleEnsure, sumPayments_cycleEnsure, sumExpenses_cons, sumPayments_cons]

theorem debtState_abs (txs : List Transaction) :
    debtState txs =
      ⟨sumExpenses (txs.foldl ccStep ⟨[], 0⟩).cycles,
        sumPayments (txs.foldl ccStep ⟨[], 0⟩).cycles,
        (txs.foldl ccStep ⟨[], 0⟩).borrowed⟩ := by
  unfold debtState
  have h := List.foldl_hom
    (fun (s : CCState) => DebtState.mk (sumExpenses s.cycles) (sumPayments s.cycles) s.borrowed)
    ccStep debtStep txs ⟨[], 0⟩ (fun s tx => (ccStep_abs s tx).symm)
  exact h

/-- `compute_outstanding_debt` in terms of the running sums. -/
theorem compute_outstanding_debt_abs (txs : List Transaction) :
    compute_outstanding_debt txs =
      (round2 (max 0 ((debtState txs).expenses - (debtState txs).payments)),
        round2 (debtState txs).borrowed) := by
  rw [debtState_abs]
  rfl

/- ### C10: non-negativity of the debt figures -/

theorem debtStep_borrowed_nonneg (st : DebtState) (tx : Transaction)
    (h : 0 ≤ st.borrowed) : 0 ≤ (debtStep st tx).borrowed := by
  unfold debtStep
  split
  · exact h
  · dsimp only
    split
    · split
      · exact add_nonneg h (abs_nonneg _)
      · exact h
    · split
      · exact le_max_left 0 _
      · split
        · split
          · exact add_nonneg h (abs_nonneg _)
          · exact h
        · split
          · exact h
          · exact h

theorem foldl_debtStep_borrowed_nonneg (txs : List Transaction) (st : DebtState)
    (h : 0 ≤ st.borrowed) : 0 ≤ (txs.foldl debtStep st).borrowed := by
  induction txs generalizing st with
  | nil => exact h
  | cons tx rest ih =>
    simp only [List.foldl_cons]
    exact ih _ (debtStep_borrowed_nonneg st tx h)

/-- C10: For every transaction list, both components of the pair
(credit_card_debt, borrowed_debt) returned by `compute_outstanding_debt`
are non-negative. -/
theorem compute_outstanding_debt_nonneg (txs : List Transaction) :
    0 ≤ (compute_outstanding_debt txs).1 ∧ 0 ≤ (compute_outstanding_debt txs).2 := by
  rw [compute_outstanding_debt_abs]
  refine ⟨round2_nonneg _ (le_max_left 0 _), round2_nonneg _ ?_⟩
  exact foldl_debtStep_borrowed_nonneg txs ⟨0, 0, 0⟩ le_rfl

/- ### C9: shifting the initial balance -/

theorem balanceStep_shift (b d : ℚ) (tx : Transaction) :
    balanceStep (b + d) tx = balanceStep b tx + d := by
  unfold balanceStep
  split_ifs <;> ring

theorem foldl_balance_shift (txs : List Transaction) (b d : ℚ) :
    txs.foldl balanceStep (b + d) = txs.foldl balanceStep b + d := by
  induction txs generalizing b with
  | nil => rfl
  | cons tx rest ih =>
    simp only [List.foldl_cons]
    rw [balanceStep_shift]
    exact ih _

theorem foldl_balance_fix (txs : List Transaction) (b : ℚ) (hb : round2 b = b)
    (ha : ∀ tx ∈ txs, round2 tx.amount = tx.amount) :
    round2 (txs.foldl balanceStep b) = txs.foldl balanceStep b := by
  induction txs generalizing b with
  | nil => exact hb
  | cons tx rest ih =>
    simp only [List.foldl_cons]
    refine ih _ ?_ (fun t ht => ha t (List.mem_cons_of_mem _ ht))
    have htx := ha tx (List.mem_cons_self _ _)
    unfold balanceStep
    split_ifs with h1 h2 h3 h4 h5
    · exact hb
    · exact hb
    · exact hb
    · exact round2_fix_add hb htx
    · exact round2_fix_sub hb htx
    · exact hb

/-- C9 (amended): `compute_balance` is linear in the initial balance for
shifts that are exact 2-decimal values, provided the initial balance and
all transaction amounts are exact 2-decimal values as well (every amount
the engine stores is, being produced by `round(..., 2)`); an arbitrary
rational/float shift is rounded away, see the counterexample. -/
theorem compute_balance_initial_shift (txs : List Transaction) (b d : ℚ)
    (hb : round2 b = b) (hd : round2 d = d)
    (ha : ∀ tx ∈ txs, round2 tx.amount = tx.amount) :
    compute_balance txs (b + d) = compute_balance txs b + d := by
  unfold compute_balance
  rw [foldl_balance_shift]
  have hfix := foldl_balance_fix txs b hb ha
  rw [round2_fix_add hfix hd, hfix]

set_option maxRecDepth 1000000 in
/-- C9 witness: a concrete instance of the amended linearity. -/
theorem compute_balance_initial_shift_witness :
    compute_balance
        [{ id := "t", timestamp := ⟨⟨2024, 1, 1⟩, 0, 0, 0, 0⟩, tx_type := "expense",
            sub_type := "regular", amount := 200, date := ⟨2024, 1, 1⟩,
            device := "BANK_TRANSFER" }] (1000 + 5 / 100) =
      compute_balance
        [{ id := "t", timestamp := ⟨⟨2024, 1, 1⟩, 0, 0, 0, 0⟩, tx_type := "expense",
            sub_type := "regular", amount := 200, date := ⟨2024, 1, 1⟩,
            device := "BANK_TRANSFER" }] 1000 + 5 / 100 := by
  apply compute_balance_initial_shift
  · with_unfolding_all decide
  · with_unfolding_all decide
  · intro tx htx
    simp only [List.mem_singleton] at htx
    rw [htx]
    with_unfolding_all decide

set_option maxRecDepth 1000000 in
/-- C9 counterexample: a sub-cent shift is rounded away, so the claim
fails as stated for arbitrary shifts (code rounds the result to 2
decimals; 0.001 is not recoverable). -/
theorem compute_balance_initial_shift_counterexample :
    compute_balance [] (0 + 1 / 1000) ≠ compute_balance [] 0 + 1 / 1000 := by
  with_unfolding_all decide

/- ### C2: the billing cycle window -/

/-- C2 counterexample: the claim says a cycle ends on the 18th of the
following month; the code ends it on the 20th.  At 2024-01-19 the cycle
is (2024-01-19, 2024-02-20), not (…, 2024-02-18). -/
theorem get_billing_cycle_counterexample :
    (get_billing_cycle ⟨2024, 1, 19⟩).2 = ⟨2024, 2, 20⟩ ∧
      (get_billing_cycle ⟨2024, 1, 19⟩).2 ≠ ⟨2024, 2, 18⟩ := by
  constructor
  · rfl
  · intro h
    exact absurd (congrArg PyDate.day h) (by decide)

/-- C2 (amended): for every valid date `d`, the billing cycle assigned by
`get_billing_cycle` starts on the 19th of a month, ends on the 20th (not
the 18th) of the immediately following month, and `d` lies between the
two endpoints inclusive. -/
theorem get_billing_cycle_spec (d : PyDate) (hd : d.Valid) :
    (get_billing_cycle d).1.day = 19 ∧ (get_billing_cycle d).2.day = 20 ∧
      ((get_billing_cycle d).1.month = 12 ∧ (get_billing_cycle d).2.month = 1 ∧
          (get_billing_cycle d).2.year = (get_billing_cycle d).1.year + 1 ∨
        (get_billing_cycle d).2.month = (get_billing_cycle d).1.month + 1 ∧
          (get_billing_cycle d).2.year = (get_billing_cycle d).1.year) ∧
      date_le (get_billing_cycle d).1 d = true ∧ date_le d (get_billing_cycle d).2 = true := by
  obtain ⟨y, m, dd⟩ := d
  obtain ⟨h1, h2, h3, h4, h5, h6⟩ := hd
  simp only at h1 h2 h3 h4 h5 h6
  unfold get_billing_cycle date_le
  by_cases hday : dd ≥ 19
  · by_cases hm : m = 12
    · simp [hday, hm]
    · simp [hday, hm]
  · by_cases hm : m = 1
    · simp [hday, hm]
      omega
    · simp [hday, hm]
      omega

/-- C2 witness: the amended description at a concrete date. -/
theorem get_billing_cycle_spec_witness :
    (⟨2024, 6, 7⟩ : PyDate).Valid ∧
      ((get_billing_cycle ⟨2024, 6, 7⟩).1.day = 19 ∧ (get_billing_cycle ⟨2024, 6, 7⟩).2.day = 20 ∧
        ((get_billing_cycle ⟨2024, 6, 7⟩).1.month = 12 ∧ (get_billing_cycle ⟨2024, 6, 7⟩).2.month = 1 ∧
            (get_billing_cycle ⟨2024, 6, 7⟩).2.year = (get_billing_cycle ⟨2024, 6, 7⟩).1.year + 1 ∨
          (get_billing_cycle ⟨2024, 6, 7⟩).2.month = (get_billing_cycle ⟨2024, 6, 7⟩).1.month + 1 ∧
            (get_billing_cycle ⟨2024, 6, 7⟩).2.year = (get_billing_cycle ⟨2024, 6, 7⟩).1.year) ∧
        date_le (get_billing_cycle ⟨2024, 6, 7⟩).1 ⟨2024, 6, 7⟩ = true ∧
          date_le ⟨2024, 6, 7⟩ (get_billing_cycle ⟨2024, 6, 7⟩).2 = true) :=
  ⟨by decide, get_billing_cycle_spec ⟨2024, 6, 7⟩ (by decide)⟩

/- ### C8: the validator -/

/-- C8: `validate_transaction` returns ok exactly when the error list is
empty, collects one message per violated rule without short-circuiting
(the date rule cannot fire on a real date object, whose isoformat always
re-parses), and — being a pure function of its argument in this model as
in the source, which only reads `tx` — leaves the transaction unchanged. -/
theorem validate_transaction_spec (tx : Transaction) (hd : tx.date.Valid) :
    ((validate_transaction tx).1 = true ↔ (validate_transaction tx).2 = []) ∧
      (validate_transaction tx).2.length =
        ((if ALLOWED_TX_TYPES.contains tx.tx_type then 0 else 1) +
          (if tx.device ≠ "" && !ALLOWED_DEVICES.contains tx.device then 1 else 0) +
          (if tx.amount ≤ 0 then 1 else 0)) ∧
      ((validate_transaction tx).1 = true ↔
        (ALLOWED_TX_TYPES.contains tx.tx_type = true ∧
          (tx.device = "" ∨ ALLOWED_DEVICES.contains tx.device = true) ∧ 0 < tx.amount)) := by
  unfold validate_transaction
  rw [parseIsoDate_isoDate tx.date hd]
  by_cases ht : ALLOWED_TX_TYPES.contains tx.tx_type <;>
    by_cases hdev : tx.device = "" <;>
    by_cases hdev2 : ALLOWED_DEVICES.contains tx.device <;>
    by_cases hamt : tx.amount ≤ 0
  all_goals simp_all [apply_ite List.length]
  all_goals omega

/-- C8 witness: the characterization at a concrete transaction violating
two rules at once (both errors are collected). -/
theorem validate_transaction_spec_witness :
    (⟨2024, 6, 1⟩ : PyDate).Valid ∧
      (let tx : Transaction :=
        { id := "t", timestamp := ⟨⟨2024, 6, 1⟩, 0, 0, 0, 0⟩, tx_type := "bogus",
          sub_type := "regular", amount := 0, date := ⟨2024, 6, 1⟩, device := "UPI" }
      ((validate_transaction tx).1 = true ↔ (validate_transaction tx).2 = []) ∧
        (validate_transaction tx).2.length =
          ((if ALLOWED_TX_TYPES.contains tx.tx_type then 0 else 1) +
            (if tx.device ≠ "" && !ALLOWED_DEVICES.contains tx.device then 1 else 0) +
            (if tx.amount ≤ 0 then 1 else 0)) ∧
        ((validate_transaction tx).1 = true ↔
          (ALLOWED_TX_TYPES.contains tx.tx_type = true ∧
            (tx.device = "" ∨ ALLOWED_DEVICES.contains tx.device = true) ∧ 0 < tx.amount))) :=
  ⟨by decide, validate_transaction_spec _ (by decide)⟩

/- ### C4: shared allocations sum to the normalized total -/

theorem alSum_cons (p : String × ℚ) (m : List (String × ℚ)) :
    alSum (p :: m) = p.2 + alSum m := by
  unfold alSum
  simp only [List.foldl_cons]
  rw [foldl_add_init (fun p => p.2) m (0 + p.2)]
  ring

theorem alSum_alAdd (m : List (String × ℚ)) (k : String) (v : ℚ) :
    alSum (alAdd m k v) = alSum m + v := by
  induction m with
  | nil => simp [alAdd, alGet, alSet, alSum_cons, alSum]
  | cons p rest ih =>
    obtain ⟨k1, v1⟩ := p
    by_cases hk : k1 = k
    · subst hk
      have hstep : alAdd ((k1, v1) :: rest) k1 v = (k1, v1 + v) :: rest := by
        unfold alAdd alGet alSet
        simp
      rw [hstep, alSum_cons, alSum_cons]
      ring
    · have hbeq : (k1 == k) = false := beq_eq_false_iff_ne.2 hk
      have hstep : alAdd ((k1, v1) :: rest) k v = (k1, v1) :: alAdd rest k v := by
        unfold alAdd alGet alSet
        simp [hbeq, hk]
        rw [alSet.eq_def]
      rw [hstep, alSum_cons, alSum_cons, ih]
      ring

theorem round2_fix_nat_mul {q : ℚ} (n : ℕ) (hq : round2 q = q) :
    round2 ((n : ℚ) * q) = (n : ℚ) * q := by
  obtain ⟨j, rfl⟩ := (round2_fix_iff q).1 hq
  have h : (n : ℚ) * ((j : ℚ) / 100) = (((n : ℤ) * j : ℤ) : ℚ) / 100 := by push_cast; ring
  rw [h, round2_cents]

/-- The distribution loop: its allocations sum to the prior shares plus
everything handed out (the last participant absorbs the residue). -/
theorem distributeRemaining_sum (r b : ℚ) :
    ∀ (names : List String) (n : String) (alloc : List (String × ℚ)) (dist : ℚ),
      alSum (distributeRemaining r b alloc dist (n :: names)) =
        alSum alloc + (names.length : ℚ) * round2 b +
          round2 (max (r - (dist + (names.length : ℚ) * round2 b)) 0) := by
  intro names
  induction names with
  | nil =>
    intro n alloc dist
    unfold distributeRemaining
    rw [alSum_alAdd]
    simp
  | cons n2 rest ih =>
    intro n alloc dist
    show alSum (distributeRemaining r b (alAdd alloc n (round2 b)) (dist + round2 b) (n2 :: rest)) = _
    rw [ih n2 (alAdd alloc n (round2 b)) (dist + round2 b), alSum_alAdd]
    have harg : r - (dist + round2 b + (rest.length : ℚ) * round2 b) =
        r - (dist + ((n2 :: rest).length : ℚ) * round2 b) := by
      simp only [List.length_cons]
      push_cast
      ring
    rw [harg]
    simp only [List.length_cons]
    push_cast
    ring

theorem gatherSplits_all_unspec :
    ∀ (splits : List SharedSplit) (st : List (String × ℚ) × List String),
      (∀ sp ∈ splits, sp.amount = none ∧ pyStrip sp.name ≠ "") →
      splits.foldl gatherStep st = (st.1, st.2 ++ splits.map (fun sp => pyStrip sp.name)) := by
  intro splits
  induction splits with
  | nil => intro st _; simp
  | cons sp rest ih =>
    intro st hall
    obtain ⟨hnone, hname⟩ := hall sp (List.mem_cons_self _ _)
    simp only [List.foldl_cons]
    rw [ih _ (fun t ht => hall t (List.mem_cons_of_mem _ ht))]
    unfold gatherStep
    simp [hname, hnone]

theorem alSum_fold_eq (m : List (String × ℚ)) :
    List.foldl (fun (a : ℚ) (p : String × ℚ) => a + p.2) 0 m = alSum m := rfl

/-- C4 (amended): for a shared transaction whose `k >= 1` splits all carry
no explicit amount and a name that survives stripping, the allocations sum
to the normalized total — provided the `k - 1` rounded equal shares do not
overshoot the total (`(k-1) * round(A/k, 2) <= A`).  When they do
overshoot, the last participant is clamped at zero and the sum exceeds the
total; see the counterexample. -/
theorem compute_shared_allocations_sum (tx : Transaction)
    (hs : tx.shared_flag = true) (hne : tx.shared_splits ≠ [])
    (hsp : ∀ sp ∈ tx.shared_splits, sp.amount = none ∧ pyStrip sp.name ≠ "")
    (hover : ((tx.shared_splits.length : ℚ) - 1) *
        round2 (normalize_amount tx.amount / (tx.shared_splits.length : ℚ)) ≤
      normalize_amount tx.amount) :
    alSum (compute_shared_allocations tx) = normalize_amount tx.amount := by
  obtain ⟨sp0, rest, hsplit⟩ : ∃ sp0 rest, tx.shared_splits = sp0 :: rest := by
    cases h : tx.shared_splits with
    | nil => exact absurd h hne
    | cons a b => exact ⟨a, b, rfl⟩
  unfold compute_shared_allocations gatherSplits
  rw [hs, hsplit]
  simp only [Bool.not_true, Bool.false_or, List.isEmpty_cons, if_false]
  rw [gatherSplits_all_unspec _ _ (hsplit ▸ hsp)]
  set A := normalize_amount tx.amount with hA
  have hAfix : round2 A = A := normalize_amount_fix _
  have hA0 : 0 ≤ A := normalize_amount_nonneg _
  have hrem : max (round2 (A - 0)) 0 = A := by
    rw [sub_zero, hAfix]
    exact max_eq_left hA0
  simp only [List.nil_append, List.map_cons, alSum, List.foldl_nil, hrem]
  rw [alSum_fold_eq]
  have hlen : (((pyStrip sp0.name :: List.map (fun sp => pyStrip sp.name) rest)).length : ℚ)
      = ((tx.shared_splits.length : ℚ)) := by
    rw [hsplit]
    simp
  have hbase : (if A > 0
        then A / (((pyStrip sp0.name :: List.map (fun sp => pyStrip sp.name) rest)).length : ℚ)
        else 0)
      = A / (((pyStrip sp0.name :: List.map (fun sp => pyStrip sp.name) rest)).length : ℚ) := by
    rcases lt_or_eq_of_le hA0 with h | h
    · rw [if_pos h]
    · rw [if_neg (by rw [← h]; exact lt_irrefl 0), ← h]
      simp
  simp only [List.isEmpty_eq_true, reduceCtorEq, if_false, hbase]
  rw [distributeRemaining_sum]
  rw [hlen]
  set R := round2 (A / (tx.shared_splits.length : ℚ)) with hRdef
  have hR : round2 R = R := round2_round2 _
  have hnslen : (((List.map (fun sp => pyStrip sp.name) rest).length : ℚ))
      = (tx.shared_splits.length : ℚ) - 1 := by
    rw [hsplit]
    simp
  rw [hnslen]
  have hover2 : ((tx.shared_splits.length : ℚ) - 1) * R ≤ A := hover
  have hmaxpos : max (A - (0 + ((tx.shared_splits.length : ℚ) - 1) * R)) 0
      = A - ((tx.shared_splits.length : ℚ) - 1) * R := by
    rw [zero_add]
    exact max_eq_left (by linarith)
  rw [hmaxpos]
  have hk1 : ∃ n : ℕ, (tx.shared_splits.length : ℚ) - 1 = (n : ℚ) := by
    refine ⟨tx.shared_splits.length - 1, ?_⟩
    rw [hsplit]
    simp
  obtain ⟨n, hn⟩ := hk1
  have hprod : round2 (((tx.shared_splits.length : ℚ) - 1) * R)
      = ((tx.shared_splits.length : ℚ) - 1) * R := by
    rw [hn]
    exact round2_fix_nat_mul n hR
  rw [round2_fix_sub hAfix hprod]
  have hsum0 : alSum ([] : List (String × ℚ)) = 0 := rfl
  rw [hsum0]
  ring

set_option maxRecDepth 1000000 in
/-- C4 witness: splitting 10.00 among three unspecified participants sums
to exactly 10.00 (shares 3.33, 3.33, 3.34). -/
theorem compute_shared_allocations_sum_witness :
    alSum (compute_shared_allocations
        { id := "t", timestamp := ⟨⟨2024, 1, 1⟩, 0, 0, 0, 0⟩, tx_type := "expense",
          sub_type := "regular", amount := 10, date := ⟨2024, 1, 1⟩, shared_flag := true,
          shared_splits := [⟨"a", none⟩, ⟨"b", none⟩, ⟨"c", none⟩] })
      = normalize_amount 10 :=
  compute_shared_allocations_sum _ rfl (by decide)
    (by intro sp hsp; fin_cases hsp <;> exact ⟨rfl, by decide⟩)
    (by with_unfolding_all decide)

set_option maxRecDepth 1000000 in
/-- C4 counterexample: amount 0.03 split among five unspecified
participants gives shares 0.01, 0.01, 0.01, 0.01, 0.00, summing to 0.04,
not the normalized total 0.03 (round(0.006, 2) = 0.01 overshoots and the
last participant is clamped at zero). -/
theorem compute_shared_allocations_sum_counterexample :
    alSum (compute_shared_allocations
        { id := "t", timestamp := ⟨⟨2024, 1, 1⟩, 0, 0, 0, 0⟩, tx_type := "expense",
          sub_type := "regular", amount := 3 / 100, date := ⟨2024, 1, 1⟩, shared_flag := true,
          shared_splits := [⟨"a", none⟩, ⟨"b", none⟩, ⟨"c", none⟩, ⟨"d", none⟩, ⟨"e", none⟩] })
        = 4 / 100 ∧
      normalize_amount (3 / 100) = 3 / 100 ∧ (4 / 100 : ℚ) ≠ 3 / 100 := by
  refine ⟨?_, ?_, ?_⟩ <;> with_unfolding_all decide

/- ### C5: sign conventions in the shared-expense summary -/

theorem alGet_alSet_self (m : List (String × ℚ)) (k : String) (v : ℚ) :
    alGet (alSet m k v) k = some v := by
  induction m with
  | nil => simp [alSet, alGet]
  | cons p rest ih =>
    obtain ⟨k1, v1⟩ := p
    by_cases hk : k1 = k
    · subst hk
      simp [alSet, alGet]
    · have hbeq : (k1 == k) = false := beq_eq_false_iff_ne.2 hk
      simp [alSet, alGet, hk, hbeq] at *
      exact ih

theorem alGet_alSet_ne (m : List (String × ℚ)) (k k' : String) (v : ℚ) (h : k' ≠ k) :
    alGet (alSet m k v) k' = alGet m k' := by
  induction m with
  | nil =>
    have hbeq : (k == k') = false := beq_eq_false_iff_ne.2 (Ne.symm h)
    simp [alSet, alGet, hbeq]
  | cons p rest ih =>
    obtain ⟨k1, v1⟩ := p
    by_cases hk : k1 = k
    · subst hk
      have hbeq : (k1 == k') = false := beq_eq_false_iff_ne.2 (fun hc => h hc.symm)
      simp [alSet, alGet, hbeq]
    · have hbeq : (k1 == k) = false := beq_eq_false_iff_ne.2 hk
      by_cases hk' : k1 = k'
      · subst hk'
        simp [alSet, alGet, hk]
      · have hbeq' : (k1 == k') = false := beq_eq_false_iff_ne.2 hk'
        simp [alSet, alGet, hk, hbeq, hbeq'] at *
        exact ih

theorem summaryFold_preserve (sign : ℚ) (m : List (String × ℚ)) (s : List (String × ℚ))
    (name : String) (h : ∀ p ∈ m, p.1 ≠ name) :
    alGet (m.foldl (fun s p => alSet s p.1 (round2 ((alGet s p.1).getD 0 + sign * p.2))) s) name
      = alGet s name := by
  induction m generalizing s with
  | nil => rfl
  | cons p rest ih =>
    simp only [List.foldl_cons]
    rw [ih _ (fun q hq => h q (List.mem_cons_of_mem _ hq))]
    exact alGet_alSet_ne _ _ _ _ (fun hc => h p (List.mem_cons_self _ _) hc.symm)

theorem mem_keys_alSet (m : List (String × ℚ)) (k : String) (v : ℚ) (x : String)
    (h : x ∈ (alSet m k v).map Prod.fst) : x ∈ m.map Prod.fst ∨ x = k := by
  induction m with
  | nil =>
    simp [alSet] at h
    exact Or.inr h
  | cons p rest ih =>
    obtain ⟨k1, v1⟩ := p
    by_cases hk : k1 = k
    · subst hk
      simp [alSet] at h
      simp
      tauto
    · have hstep : alSet ((k1, v1) :: rest) k v = (k1, v1) :: alSet rest k v := by
        unfold alSet
        simp [hk]
        rw [alSet.eq_def]
      rw [hstep] at h
      simp only [List.map_cons, List.mem_cons] at h
      rcases h with h | h
      · exact Or.inl (by simp [h])
      · rcases ih h with h2 | h2
        · exact Or.inl (by simp [h2])
        · exact Or.inr h2

theorem keys_alSet_nodup (m : List (String × ℚ)) (k : String) (v : ℚ)
    (h : (m.map Prod.fst).Nodup) : ((alSet m k v).map Prod.fst).Nodup := by
  induction m with
  | nil => simp [alSet]
  | cons p rest ih =>
    obtain ⟨k1, v1⟩ := p
    simp only [List.map_cons, List.nodup_cons] at h
    by_cases hk : k1 = k
    · subst hk
      have hstep : alSet ((k1, v1) :: rest) k1 v = (k1, v) :: rest := by
        unfold alSet
        simp
      rw [hstep]
      simp only [List.map_cons, List.nodup_cons]
      exact h
    · have hstep : alSet ((k1, v1) :: rest) k v = (k1, v1) :: alSet rest k v := by
        unfold alSet
        simp [hk]
        rw [alSet.eq_def]
      rw [hstep]
      simp only [List.map_cons, List.nodup_cons]
      refine ⟨fun hc => ?_, ih h.2⟩
      rcases mem_keys_alSet rest k v k1 hc with h2 | h2
      · exact h.1 h2
      · exact hk h2

theorem keys_alAdd_nodup (m : List (String × ℚ)) (k : String) (v : ℚ)
    (h : (m.map Prod.fst).Nodup) : ((alAdd m k v).map Prod.fst).Nodup :=
  keys_alSet_nodup m k _ h

theorem gatherFold_keys_nodup (splits : List SharedSplit) :
    ∀ st : List (String × ℚ) × List String, (st.1.map Prod.fst).Nodup →
      ((splits.foldl gatherStep st).1.map Prod.fst).Nodup := by
  induction splits with
  | nil => exact fun st h => h
  | cons sp rest ih =>
    intro st h
    simp only [List.foldl_cons]
    refine ih _ ?_
    by_cases hname : pyStrip sp.name = ""
    · simp only [gatherStep, hname, if_true]
      exact h
    · cases hamt : sp.amount with
      | none =>
        simp only [gatherStep, hname, if_false, hamt]
        exact h
      | some a =>
        simp only [gatherStep, hname, if_false, hamt]
        exact keys_alAdd_nodup _ _ _ h

theorem distributeRemaining_keys_nodup (r b : ℚ) :
    ∀ (names : List String) (alloc : List (String × ℚ)) (dist : ℚ),
      (alloc.map Prod.fst).Nodup →
      ((distributeRemaining r b alloc dist names).map Prod.fst).Nodup := by
  intro names
  induction names with
  | nil => exact fun alloc dist h => h
  | cons n rest ih =>
    intro alloc dist h
    cases rest with
    | nil => exact keys_alAdd_nodup _ _ _ h
    | cons n2 rest2 =>
      show ((distributeRemaining r b (alAdd alloc n (round2 b)) (dist + round2 b)
        (n2 :: rest2)).map Prod.fst).Nodup
      exact ih _ _ (keys_alAdd_nodup _ _ _ h)

theorem compute_shared_allocations_keys_nodup (tx : Transaction) :
    ((compute_shared_allocations tx).map Prod.fst).Nodup := by
  unfold compute_shared_allocations
  split
  · simp
  · rcases hgs : gatherSplits tx.shared_splits with ⟨explicit, unspecified⟩
    have hexp : (explicit.map Prod.fst).Nodup := by
      have hg := gatherFold_keys_nodup tx.shared_splits ([], []) (by simp)
      unfold gatherSplits at hgs
      rw [hgs] at hg
      exact hg
    dsimp only
    split
    · exact hexp
    · exact distributeRemaining_keys_nodup _ _ _ _ _ hexp

theorem alGet_mem (m : List (String × ℚ)) (k : String) (v : ℚ) (h : alGet m k = some v) :
    (k, v) ∈ m := by
  induction m with
  | nil => simp [alGet] at h
  | cons p rest ih =>
    obtain ⟨k1, v1⟩ := p
    by_cases hk : k1 = k
    · subst hk
      simp [alGet] at h
      simp [h]
    · have hbeq : (k1 == k) = false := beq_eq_false_iff_ne.2 hk
      have hstep : alGet ((k1, v1) :: rest) k = alGet rest k := by
        unfold alGet
        simp [hbeq]
      rw [hstep] at h
      exact List.mem_cons_of_mem _ (ih h)

/-- Processing the allocation entries of one transaction into an empty
summary: each participant ends at `round2` of `sign` times their share. -/
theorem summaryFold_get (sign : ℚ) :
    ∀ (m : List (String × ℚ)) (s : List (String × ℚ)) (name : String) (a : ℚ),
      alGet m name = some a → (m.map Prod.fst).Nodup → alGet s name = none →
      alGet (m.foldl (fun s p => alSet s p.1 (round2 ((alGet s p.1).getD 0 + sign * p.2))) s)
          name
        = some (round2 (sign * a)) := by
  intro m
  induction m with
  | nil => intro s name a h; simp [alGet] at h
  | cons p rest ih =>
    intro s name a hget hnd hs0
    obtain ⟨k1, v1⟩ := p
    simp only [List.map_cons, List.nodup_cons] at hnd
    by_cases hk : k1 = name
    · subst hk
      simp only [alGet, List.find?_cons, beq_self_eq_true, Option.map_some] at hget
      injection hget with ha
      subst ha
      simp only [List.foldl_cons]
      rw [summaryFold_preserve sign rest _ k1
        (fun q hq hc => hnd.1 (hc ▸ List.mem_map_of_mem Prod.fst hq))]
      rw [alGet_alSet_self]
      rw [hs0]
      simp
    · have hbeq : (k1 == name) = false := beq_eq_false_iff_ne.2 hk
      simp only [alGet, List.find?_cons, hbeq] at hget
      simp only [List.foldl_cons]
      refine ih _ name a hget hnd.2 ?_
      rw [alGet_alSet_ne _ _ _ _ (Ne.symm hk)]
      exact hs0

theorem alGet_filter (P : String × ℚ → Bool) (m : List (String × ℚ)) (k : String) (v : ℚ)
    (h : alGet m k = some v) (hP : P (k, v) = true) :
    alGet (m.filter P) k = some v := by
  induction m with
  | nil => simp [alGet] at h
  | cons p rest ih =>
    obtain ⟨k1, v1⟩ := p
    by_cases hk : k1 = k
    · subst hk
      simp only [alGet, List.find?_cons, beq_self_eq_true, Option.map_some] at h
      injection h with hv
      subst hv
      simp only [List.filter_cons, hP, if_true]
      simp [alGet]
    · have hbeq : (k1 == k) = false := beq_eq_false_iff_ne.2 hk
      have hstep : alGet ((k1, v1) :: rest) k = alGet rest k := by
        unfold alGet
        simp [hbeq]
      rw [hstep] at h
      simp only [List.filter_cons]
      split
      · have hstep2 : alGet ((k1, v1) :: rest.filter P) k = alGet (rest.filter P) k := by
          unfold alGet
          simp [hbeq]
        rw [hstep2]
        exact ih h
      · exact ih h

/-- C5 (amended): in `summarize_shared_expenses`, a shared expense is
added to each participant total with positive sign and a shared income
with negative sign; the `DEBT_BORROWED` device forces the sign to be
negative regardless of `tx_type` — it does NOT invert the income case to
positive (a DEBT_BORROWED income also contributes negatively, see the
counterexample). -/
theorem summarize_shared_sign (tx : Transaction) (name : String) (a : ℚ)
    (hs : tx.shared_flag = true)
    (ht : tx.tx_type = "expense" ∨ tx.tx_type = "income")
    (hget : alGet (compute_shared_allocations tx) name = some a)
    (ha : ∃ j : ℤ, a = (j : ℚ) / 100) (ha2 : 1 / 100 ≤ a) :
    alGet (summarize_shared_expenses [tx] none none).1 name =
      some ((if tx.device = "DEBT_BORROWED" then -1
        else if tx.tx_type = "expense" then (1 : ℚ) else -1) * a) := by
  have hMne : (compute_shared_allocations tx).isEmpty = false := by
    have hmem := alGet_mem _ _ _ hget
    cases hC : compute_shared_allocations tx with
    | nil => rw [hC] at hmem; simp at hmem
    | cons p rest => simp
  set sign : ℚ := (if tx.device = "DEBT_BORROWED" then -1
    else if tx.tx_type = "expense" then (1 : ℚ) else -1) with hsign
  have hsfix : round2 (sign * a) = sign * a := by
    obtain ⟨j, rfl⟩ := ha
    rw [hsign]
    split
    · rw [show (-1 : ℚ) * ((j : ℚ) / 100) = ((-j : ℤ) : ℚ) / 100 by push_cast; ring]
      exact round2_cents _
    · split
      · rw [one_mul]
        exact round2_cents _
      · rw [show (-1 : ℚ) * ((j : ℚ) / 100) = ((-j : ℤ) : ℚ) / 100 by push_cast; ring]
        exact round2_cents _
  have hsabs : |sign * a| = a := by
    rw [hsign]
    have h0 : 0 ≤ a := le_trans (by norm_num) ha2
    split
    · rw [show (-1 : ℚ) * a = -a by ring, abs_neg, abs_of_nonneg h0]
    · split
      · rw [one_mul, abs_of_nonneg h0]
      · rw [show (-1 : ℚ) * a = -a by ring, abs_neg, abs_of_nonneg h0]
  unfold summarize_shared_expenses
  dsimp only
  simp only [List.foldl_cons, List.foldl_nil]
  unfold summarizeStep
  rw [hs]
  simp only [Bool.not_true, Bool.false_eq_true, if_false]
  have hdec : (decide (tx.tx_type = "expense" ∨ tx.tx_type = "income")) = true :=
    decide_eq_true ht
  simp only [hdec, Bool.not_true, Bool.false_eq_true, if_false, hMne]
  rw [← hsign]
  have hsum := summaryFold_get sign (compute_shared_allocations tx) [] name a hget
    (compute_shared_allocations_keys_nodup tx) rfl
  refine alGet_filter _ _ _ _ ?_ ?_
  · rw [hsum, hsfix]
  · rw [decide_eq_true_eq]
    rw [hsabs]
    linarith

set_option maxRecDepth 1000000 in
/-- C5 witness: a plain shared expense of 10.00 with one participant
contributes +10.00 to that participant. -/
theorem summarize_shared_sign_witness :
    alGet (summarize_shared_expenses
        [{ id := "t", timestamp := ⟨⟨2024, 1, 1⟩, 0, 0, 0, 0⟩, tx_type := "expense",
            sub_type := "regular", amount := 10, date := ⟨2024, 1, 1⟩, device := "UPI",
            shared_flag := true, shared_splits := [⟨"alice", none⟩] }] none none).1 "alice" =
      some ((if ("UPI" : String) = "DEBT_BORROWED" then -1
        else if ("expense" : String) = "expense" then (1 : ℚ) else -1) * 10) :=
  summarize_shared_sign _ "alice" 10 rfl (Or.inl rfl)
    (by with_unfolding_all decide) ⟨1000, by norm_num⟩ (by norm_num)

set_option maxRecDepth 1000000 in
/-- C5 counterexample: a shared income of 10.00 tagged `DEBT_BORROWED`
contributes −10.00 to the participant, not +10.00 as the claim's
"inverted income" rule would predict. -/
theorem summarize_shared_sign_counterexample :
    alGet (summarize_shared_expenses
        [{ id := "t", timestamp := ⟨⟨2024, 1, 1⟩, 0, 0, 0, 0⟩, tx_type := "income",
            sub_type := "regular", amount := 10, date := ⟨2024, 1, 1⟩,
            device := "DEBT_BORROWED", shared_flag := true,
            shared_splits := [⟨"alice", none⟩] }] none none).1 "alice" =
        some (-10) ∧
      ((-10 : ℚ) ≠ 10) := by
  constructor
  · with_unfolding_all decide
  · norm_num

/- ### C1/C3: how the debt pass treats specific transactions -/

theorem debtStep_skip_non_expense (S : DebtState) (t : Transaction)
    (h : t.tx_type ≠ "expense") : debtStep S t = S := by
  unfold debtStep
  rw [if_pos h]

theorem balanceStep_skip (b : ℚ) (t : Transaction) (h : t.effects_balance = false) :
    balanceStep b t = b := by
  unfold balanceStep
  simp [h]

set_option maxHeartbeats 1000000 in
/-- A credit-card classified expense with no payment-like term in its
description and no debt-cleared category lands in the expenses bucket. -/
theorem debtStep_cc_expense (S : DebtState) (t : Transaction)
    (h1 : t.tx_type = "expense")
    (hdev : t.device = "CREDIT_CARD" ∨ t.device = "CREDIT_CARD_UPI")
    (hdesc : ∀ term ∈ PAYMENT_TERMS, strIn term (pyLower t.description) = false)
    (hcat : strIn "debt cleared" (pyLower t.category) = false) :
    debtStep S t = { S with expenses := S.expenses + |t.amount| } := by
  unfold debtStep
  rw [if_neg (by rw [h1]; simp)]
  have hup : pyUpper t.device = t.device := by
    rcases hdev with h | h <;> rw [h] <;> decide
  have hdb : ¬(pyUpper t.device = "DEBT_BORROWED") := by
    rw [hup]
    rcases hdev with h | h <;> rw [h] <;> decide
  rw [if_neg hdb]
  have hclr : pyLower DEBT_CLEARED_CATEGORY = "debt cleared" := by decide
  rw [hclr, if_neg (by rw [hcat]; simp)]
  have hcc : (CREDIT_CARD_DEVICES.contains (pyUpper t.device) ||
      CC_DESC_TERMS.any (fun term => strIn term (pyLower t.description)) ||
      (strIn "credit" (pyLower t.category) && strIn "card" (pyLower t.category))) = true := by
    rw [hup]
    rcases hdev with h | h <;> rw [h] <;> simp <;> exact Or.inl (Or.inl (by decide))
  rw [hcc]
  have hpay : PAYMENT_TERMS.any (fun term => strIn term (pyLower t.description)) = false := by
    rw [List.any_eq_false]
    intro x hx
    rw [hdesc x hx]
    simp
  simp only [Bool.not_true, Bool.false_eq_true, if_false, hpay]

set_option maxHeartbeats 1000000 in
/-- An expense whose category contains the debt-cleared marker clamps the
borrowed total and leaves the credit-card buckets alone. -/
theorem debtStep_debt_cleared (S : DebtState) (t : Transaction)
    (h1 : t.tx_type = "expense")
    (h2 : pyUpper t.device ≠ "DEBT_BORROWED")
    (h3 : strIn "debt cleared" (pyLower t.category) = true) :
    debtStep S t = { S with borrowed := max 0 (S.borrowed - min S.borrowed |t.amount|) } := by
  unfold debtStep
  rw [if_neg (by rw [h1]; simp)]
  rw [if_neg h2]
  have hclr : pyLower DEBT_CLEARED_CATEGORY = "debt cleared" := by decide
  rw [hclr, if_pos h3]

theorem debtState_append (txs l : List Transaction) :
    debtState (txs ++ l) = l.foldl debtStep (debtState txs) := by
  unfold debtState
  rw [List.foldl_append]

theorem debtStep_fix (S : DebtState) (t : Transaction)
    (htx : round2 t.amount = t.amount)
    (he : round2 S.expenses = S.expenses) (hp : round2 S.payments = S.payments)
    (hb : round2 S.borrowed = S.borrowed) :
    round2 (debtStep S t).expenses = (debtStep S t).expenses ∧
      round2 (debtStep S t).payments = (debtStep S t).payments ∧
      round2 (debtStep S t).borrowed = (debtStep S t).borrowed := by
  have habs : round2 |t.amount| = |t.amount| := round2_fix_abs htx
  unfold debtStep
  dsimp only
  split_ifs
  · exact ⟨he, hp, hb⟩
  · exact ⟨he, hp, round2_fix_add hb habs⟩
  · exact ⟨he, hp, hb⟩
  · exact ⟨he, hp, round2_fix_max round2_fix_zero
      (round2_fix_sub hb (round2_fix_min hb habs))⟩
  · exact ⟨he, hp, round2_fix_add hb habs⟩
  · exact ⟨he, hp, hb⟩
  · exact ⟨he, round2_fix_add hp habs, hb⟩
  · exact ⟨round2_fix_add he habs, hp, hb⟩

theorem debtState_fix (txs : List Transaction)
    (h : ∀ tx ∈ txs, round2 tx.amount = tx.amount) :
    round2 (debtState txs).expenses = (debtState txs).expenses ∧
      round2 (debtState txs).payments = (debtState txs).payments ∧
      round2 (debtState txs).borrowed = (debtState txs).borrowed := by
  have hgen : ∀ (l : List Transaction) (S : DebtState),
      (∀ tx ∈ l, round2 tx.amount = tx.amount) →
      round2 S.expenses = S.expenses → round2 S.payments = S.payments →
      round2 S.borrowed = S.borrowed →
      round2 (l.foldl debtStep S).expenses = (l.foldl debtStep S).expenses ∧
        round2 (l.foldl debtStep S).payments = (l.foldl debtStep S).payments ∧
        round2 (l.foldl debtStep S).borrowed = (l.foldl debtStep S).borrowed := by
    intro l
    induction l with
    | nil => exact fun S _ he hp hb => ⟨he, hp, hb⟩
    | cons t rest ih =>
      intro S hall he hp hb
      simp only [List.foldl_cons]
      obtain ⟨he2, hp2, hb2⟩ :=
        debtStep_fix S t (hall t (List.mem_cons_self _ _)) he hp hb
      exact ih _ (fun q hq => hall q (List.mem_cons_of_mem _ hq)) he2 hp2 hb2
  exact hgen txs ⟨0, 0, 0⟩ h round2_fix_zero round2_fix_zero round2_fix_zero

theorem normalize_amount_idem (q : ℚ) :
    normalize_amount (normalize_amount q) = normalize_amount q := by
  unfold normalize_amount
  rw [abs_of_nonneg (round2_nonneg _ (abs_nonneg q)), round2_round2]

set_option maxHeartbeats 1000000 in
/-- The fields of the `create_credit_card_expense` pair that the balance
and debt computations inspect. -/
theorem ccpair_fields (expenseId debtId freshLink : String) (ts : PyDateTime) (amount : ℚ)
    (date_value : PyDate) (description category device location occasion : String)
    (est dst : String) (sf : Bool) (ss : List SharedSplit) (sn : String) :
    (create_credit_card_expense expenseId debtId freshLink ts amount date_value description
        category device location occasion est dst sf ss sn).1.tx_type = "expense" ∧
    (create_credit_card_expense expenseId debtId freshLink ts amount date_value description
        category device location occasion est dst sf ss sn).1.effects_balance = false ∧
    (create_credit_card_expense expenseId debtId freshLink ts amount date_value description
        category device location occasion est dst sf ss sn).1.description = description ∧
    (create_credit_card_expense expenseId debtId freshLink ts amount date_value description
        category device location occasion est dst sf ss sn).1.category = category ∧
    (create_credit_card_expense expenseId debtId freshLink ts amount date_value description
        category device location occasion est dst sf ss sn).1.amount
      = normalize_amount amount ∧
    ((create_credit_card_expense expenseId debtId freshLink ts amount date_value description
        category device location occasion est dst sf ss sn).1.device = "CREDIT_CARD" ∨
      (create_credit_card_expense expenseId debtId freshLink ts amount date_value description
        category device location occasion est dst sf ss sn).1.device = "CREDIT_CARD_UPI") ∧
    (create_credit_card_expense expenseId debtId freshLink ts amount date_value description
        category device location occasion est dst sf ss sn).2.tx_type = "income" ∧
    (create_credit_card_expense expenseId debtId freshLink ts amount date_value description
        category device location occasion est dst sf ss sn).2.effects_balance = false := by
  refine ⟨rfl, rfl, rfl, rfl, normalize_amount_idem amount, ?_, rfl, rfl⟩
  unfold create_credit_card_expense link_transactions create_expense_transaction
  dsimp only
  by_cases hc : CREDIT_CARD_DEVICES.contains (if device ≠ "" then pyUpper device else "OTHER")
  · have hmem := List.mem_of_elem_eq_true hc
    have hcase : (if device ≠ "" then pyUpper device else "OTHER") = "CREDIT_CARD" ∨
        (if device ≠ "" then pyUpper device else "OTHER") = "CREDIT_CARD_UPI" := by
      simpa [CREDIT_CARD_DEVICES] using hmem
    rw [if_pos hc]
    rcases hcase with h | h <;> rw [h]
    · left
      decide
    · right
      decide
  · rw [if_neg hc]
    left
    decide

/-- C1 (amended): appending a `create_credit_card_expense` pair leaves
`compute_balance` unchanged (both halves are created with
`effects_balance = false`) and raises the credit_card_debt component of
`compute_outstanding_debt` by exactly the normalized amount, PROVIDED
(i) the purchase description contains no payment-like term
(payment/bill/paid/clear/settle/repay — otherwise the expense is
bucketed as a credit-card payment and the debt does not grow),
(ii) its category does not contain "debt cleared", (iii) the prior
transactions hold no excess credit-card payments (payments ≤ expenses —
otherwise the floor at zero absorbs part or all of the increase), and
(iv) all stored amounts are exact 2-decimal values, as engine-produced
amounts are. -/
theorem create_credit_card_expense_effect (txs : List Transaction) (b : ℚ)
    (expenseId debtId freshLink : String) (ts : PyDateTime) (amount : ℚ)
    (date_value : PyDate) (description category device location occasion : String)
    (est dst : String) (sf : Bool) (ss : List SharedSplit) (sn : String)
    (hdesc : ∀ term ∈ PAYMENT_TERMS, strIn term (pyLower description) = false)
    (hcat : strIn "debt cleared" (pyLower category) = false)
    (hbal : (debtState txs).payments ≤ (debtState txs).expenses)
    (hfix : ∀ tx ∈ txs, round2 tx.amount = tx.amount) :
    compute_balance (txs ++
        [(create_credit_card_expense expenseId debtId freshLink ts amount date_value
            description category device location occasion est dst sf ss sn).1,
          (create_credit_card_expense expenseId debtId freshLink ts amount date_value
            description category device location occasion est dst sf ss sn).2]) b
      = compute_balance txs b ∧
    (compute_outstanding_debt (txs ++
        [(create_credit_card_expense expenseId debtId freshLink ts amount date_value
            description category device location occasion est dst sf ss sn).1,
          (create_credit_card_expense expenseId debtId freshLink ts amount date_value
            description category device location occasion est dst sf ss sn).2])).1
      = (compute_outstanding_debt txs).1 + normalize_amount amount := by
  obtain ⟨hty, heff, hdsc, hcg, hamt, hdev, hty2, heff2⟩ :=
    ccpair_fields expenseId debtId freshLink ts amount date_value description category device
      location occasion est dst sf ss sn
  constructor
  · unfold compute_balance
    rw [List.foldl_append]
    simp only [List.foldl_cons, List.foldl_nil]
    rw [balanceStep_skip _ _ heff, balanceStep_skip _ _ heff2]
  · rw [compute_outstanding_debt_abs, compute_outstanding_debt_abs]
    rw [debtState_append]
    simp only [List.foldl_cons, List.foldl_nil]
    rw [debtStep_cc_expense _ _ hty hdev (by rw [hdsc]; exact hdesc) (by rw [hcg]; exact hcat)]
    rw [debtStep_skip_non_expense _ _ (by rw [hty2]; intro hcontra; exact absurd hcontra (by decide))]
    dsimp only
    rw [hamt, abs_normalize_amount]
    obtain ⟨hE, hP, _⟩ := debtState_fix txs hfix
    set E := (debtState txs).expenses
    set P := (debtState txs).payments
    have hN : 0 ≤ normalize_amount amount := normalize_amount_nonneg amount
    have h1 : max 0 (E - P) = E - P := max_eq_right (by linarith)
    have h2 : max 0 (E + normalize_amount amount - P) = E + normalize_amount amount - P :=
      max_eq_right (by linarith)
    rw [h1, h2]
    have hEP : round2 (E - P) = E - P := round2_fix_sub hE hP
    have hEPN : round2 (E + normalize_amount amount - P) = E + normalize_amount amount - P := by
      have := round2_fix_sub (round2_fix_add hE (normalize_amount_fix amount)) hP
      exact this
    rw [hEP, hEPN]
    ring

set_option maxRecDepth 1000000 in
/-- C1 witness: an empty ledger plus a 500.00 credit-card purchase leaves
the balance at 1000.00 and raises credit-card debt by exactly 500.00. -/
theorem create_credit_card_expense_effect_witness :
    compute_balance ([] ++
        [(create_credit_card_expense "e1" "d1" "l1" ⟨⟨2024, 6, 1⟩, 0, 0, 0, 0⟩ 500
            ⟨2024, 6, 2⟩ "shoes" "misc" "CREDIT_CARD" "" "" "credit_card_expense"
            "credit_card_debt" false [] "").1,
          (create_credit_card_expense "e1" "d1" "l1" ⟨⟨2024, 6, 1⟩, 0, 0, 0, 0⟩ 500
            ⟨2024, 6, 2⟩ "shoes" "misc" "CREDIT_CARD" "" "" "credit_card_expense"
            "credit_card_debt" false [] "").2]) 1000
      = compute_balance [] 1000 ∧
    (compute_outstanding_debt ([] ++
        [(create_credit_card_expense "e1" "d1" "l1" ⟨⟨2024, 6, 1⟩, 0, 0, 0, 0⟩ 500
            ⟨2024, 6, 2⟩ "shoes" "misc" "CREDIT_CARD" "" "" "credit_card_expense"
            "credit_card_debt" false [] "").1,
          (create_credit_card_expense "e1" "d1" "l1" ⟨⟨2024, 6, 1⟩, 0, 0, 0, 0⟩ 500
            ⟨2024, 6, 2⟩ "shoes" "misc" "CREDIT_CARD" "" "" "credit_card_expense"
            "credit_card_debt" false [] "").2])).1
      = (compute_outstanding_debt []).1 + normalize_amount 500 :=
  create_credit_card_expense_effect [] 1000 "e1" "d1" "l1" ⟨⟨2024, 6, 1⟩, 0, 0, 0, 0⟩ 500
    ⟨2024, 6, 2⟩ "shoes" "misc" "CREDIT_CARD" "" "" "credit_card_expense" "credit_card_debt"
    false [] "" (by decide) (by decide) (le_refl 0) (by simp)

set_option maxRecDepth 4000000 in
/-- C1 counterexample: when the existing transactions hold excess
credit-card payments (a 100.00 payment and no expenses), appending a
50.00 credit-card purchase pair leaves credit_card_debt floored at 0.00
instead of raising it by 50.00. -/
theorem create_credit_card_expense_effect_counterexample :
    (compute_outstanding_debt
        ([{ id := "p", timestamp := ⟨⟨2024, 1, 1⟩, 0, 0, 0, 0⟩, tx_type := "expense",
            sub_type := "regular", amount := 100, date := ⟨2024, 5, 1⟩,
            description := "payment", device := "CREDIT_CARD" }] ++
          [(create_credit_card_expense "e1" "d1" "l1" ⟨⟨2024, 1, 1⟩, 0, 0, 0, 0⟩ 50
              ⟨2024, 5, 2⟩ "shoes" "misc" "CREDIT_CARD" "" "" "credit_card_expense"
              "credit_card_debt" false [] "").1,
            (create_credit_card_expense "e1" "d1" "l1" ⟨⟨2024, 1, 1⟩, 0, 0, 0, 0⟩ 50
              ⟨2024, 5, 2⟩ "shoes" "misc" "CREDIT_CARD" "" "" "credit_card_expense"
              "credit_card_debt" false [] "").2])).1 = 0 ∧
      (compute_outstanding_debt
        [{ id := "p", timestamp := ⟨⟨2024, 1, 1⟩, 0, 0, 0, 0⟩, tx_type := "expense",
            sub_type := "regular", amount := 100, date := ⟨2024, 5, 1⟩,
            description := "payment", device := "CREDIT_CARD" }]).1 + normalize_amount 50
        = 50 ∧
      (0 : ℚ) ≠ 50 := by
  refine ⟨?_, ?_, ?_⟩
  · with_unfolding_all decide
  · with_unfolding_all decide
  · norm_num

/- ### C3: there is no absolute debt-reset truncation -/

set_option maxRecDepth 4000000 in
/-- C3 counterexample: `compute_outstanding_debt` recognizes no
exact-description reset marker and never excludes earlier transactions.
With a 100.00 borrowed entry, a 70.00 credit-card expense, then a
transaction described exactly "debt reset" (category "Debt Cleared",
amount 1000.00), and a later 50.00 borrowed entry, the claim predicts the
pre-reset credit-card expense is excluded (credit_card_debt = 0); the
code returns (70.00, 50.00). -/
theorem debt_reset_truncation_counterexample :
    compute_outstanding_debt
        [{ id := "b1", timestamp := ⟨⟨2024, 1, 1⟩, 0, 0, 0, 0⟩, tx_type := "expense",
            sub_type := "regular", amount := 100, date := ⟨2024, 5, 1⟩,
            description := "from amit", device := "DEBT_BORROWED" },
          { id := "c1", timestamp := ⟨⟨2024, 1, 1⟩, 0, 0, 0, 0⟩, tx_type := "expense",
            sub_type := "regular", amount := 70, date := ⟨2024, 5, 1⟩,
            description := "shoes", device := "CREDIT_CARD" },
          { id := "r1", timestamp := ⟨⟨2024, 1, 1⟩, 0, 0, 0, 0⟩, tx_type := "expense",
            sub_type := "regular", amount := 1000, date := ⟨2024, 5, 3⟩,
            description := "debt reset", category := "Debt Cleared",
            device := "BANK_TRANSFER" },
          { id := "b2", timestamp := ⟨⟨2024, 1, 1⟩, 0, 0, 0, 0⟩, tx_type := "expense",
            sub_type := "regular", amount := 50, date := ⟨2024, 5, 4⟩,
            description := "from raj", device := "DEBT_BORROWED" }]
        = (70, 50) ∧
      (70 : ℚ) ≠ 0 := by
  constructor
  · with_unfolding_all decide
  · norm_num

/-- C3 (amended): the closest behavior the code has to a reset: an
expense whose category contains the "Debt Cleared" marker and whose
amount is at least the current borrowed-debt running total forces that
running total to zero as of that transaction — but it is an adjustment,
not a truncation point: the credit-card expense/payment totals from the
transactions before it remain included in the returned figures
unchanged, and no description is recognized as a marker. -/
theorem debt_cleared_zeroes_borrowed (txs : List Transaction) (m : Transaction)
    (h1 : m.tx_type = "expense")
    (h2 : pyUpper m.device ≠ "DEBT_BORROWED")
    (h3 : strIn "debt cleared" (pyLower m.category) = true)
    (h4 : (debtState txs).borrowed ≤ |m.amount|) :
    debtState (txs ++ [m]) =
      ⟨(debtState txs).expenses, (debtState txs).payments, 0⟩ ∧
    compute_outstanding_debt (txs ++ [m]) =
      (round2 (max 0 ((debtState txs).expenses - (debtState txs).payments)), 0) := by
  have hstep : debtState (txs ++ [m]) =
      ⟨(debtState txs).expenses, (debtState txs).payments, 0⟩ := by
    rw [debtState_append]
    simp only [List.foldl_cons, List.foldl_nil]
    rw [debtStep_debt_cleared _ _ h1 h2 h3]
    have hmin : min (debtState txs).borrowed |m.amount| = (debtState txs).borrowed :=
      min_eq_left h4
    rw [hmin]
    simp
  refine ⟨hstep, ?_⟩
  rw [compute_outstanding_debt_abs, hstep]
  rw [round2_fix_zero]

set_option maxRecDepth 1000000 in
/-- C3 witness: a "Debt Cleared" expense of 1000.00 zeroes the 100.00
borrowed running total while the prior 70.00 credit-card expense stays in
the expenses bucket. -/
theorem debt_cleared_zeroes_borrowed_witness :
    debtState
        ([{ id := "b1", timestamp := ⟨⟨2024, 1, 1⟩, 0, 0, 0, 0⟩, tx_type := "expense",
            sub_type := "regular", amount := 100, date := ⟨2024, 5, 1⟩,
            description := "from amit", device := "DEBT_BORROWED" },
          { id := "c1", timestamp := ⟨⟨2024, 1, 1⟩, 0, 0, 0, 0⟩, tx_type := "expense",
            sub_type := "regular", amount := 70, date := ⟨2024, 5, 1⟩,
            description := "shoes", device := "CREDIT_CARD" }] ++
          [{ id := "r1", timestamp := ⟨⟨2024, 1, 1⟩, 0, 0, 0, 0⟩, tx_type := "expense",
             sub_type := "regular", amount := 1000, date := ⟨2024, 5, 3⟩,
             description := "debt reset", category := "Debt Cleared",
             device := "BANK_TRANSFER" }]) = ⟨70, 0, 0⟩ := by
  refine Eq.trans
    (debt_cleared_zeroes_borrowed _ _ rfl (by decide) (by decide)
      (by with_unfolding_all decide)).1 ?_
  with_unfolding_all decide

/- ### C7: a scalar shared-splits payload makes the loader raise -/

/-- C7: the claim says `transaction_from_row` never raises for any
string-valued row.  But the `try` in `_deserialize_shared_splits` only
wraps `json.loads`; the `for item in data` loop sits outside it, so a
row whose `shared_splits` holds valid scalar JSON (here the string "1",
decoding to the integer 1) raises `TypeError` when the loop iterates
the integer.  In the model that path is `.error ()`. -/
theorem transaction_from_row_scalar_splits_error :
    transaction_from_row "fid" ⟨⟨2024, 1, 1⟩, 0, 0, 0, 0⟩ ⟨2024, 1, 1⟩
      { shared_splits := some "1" } = .error () := by
  with_unfolding_all decide

/- ### Decimal print / parse round trips -/

theorem isDigit_toNat (c : Char) (h : c.isDigit = true) :
    48 ≤ c.toNat ∧ c.toNat ≤ 57 := by
  rw [Char.isDigit] at h
  simp only [Bool.and_eq_true, decide_eq_true_eq] at h
  obtain ⟨h1, h2⟩ := h
  rw [ge_iff_le, UInt32.le_def] at h1
  rw [UInt32.le_def] at h2
  exact ⟨h1, h2⟩

theorem digit_not_ws (c : Char) (h : c.isDigit = true) : c.isWhitespace = false := by
  have hr := isDigit_toNat c h
  rw [Char.isWhitespace]
  simp only [Bool.or_eq_false_iff, decide_eq_false_iff_not]
  refine ⟨⟨⟨?_, ?_⟩, ?_⟩, ?_⟩ <;>
    · intro he
      rw [he] at hr
      revert hr
      decide

theorem digit_ne (c : Char) (h : c.isDigit = true) (d : Char)
    (hd : d.toNat < 48 ∨ 57 < d.toNat) : ¬ c = d := by
  intro he
  have hr := isDigit_toNat c h
  rw [he] at hr
  omega

theorem natLE_mem_lt (n : ℕ) : ∀ d ∈ natLE n, d < 10 := by
  induction n using natLE.induct with
  | case1 n h => intro d hd; rw [natLE, dif_pos h] at hd; simp at hd; omega
  | case2 n h ih =>
    intro d hd
    rw [natLE, dif_neg h] at hd
    rcases List.mem_cons.mp hd with h1 | h2
    · omega
    · exact ih d h2

theorem natLE_ne_nil (n : ℕ) : natLE n ≠ [] := by
  rw [natLE]; split <;> simp

theorem printNat_ne_nil (n : ℕ) : printNat n ≠ [] := by
  simp [printNat, natLE_ne_nil]

theorem printNat_all_digits (n : ℕ) : ∀ c ∈ printNat n, c.isDigit = true := by
  intro c hc
  simp only [printNat, List.mem_reverse, List.mem_map] at hc
  obtain ⟨d, hd, rfl⟩ := hc
  exact digitChar_isDigit d (natLE_mem_lt n d hd)

theorem printNat_length (n : ℕ) : (printNat n).length = (natLE n).length := by
  simp [printNat]

theorem parseDigitsCnt_printNat (n : ℕ) : ∀ (acc cnt : ℕ) (rest : List Char),
    parseDigitsCnt acc cnt (printNat n ++ rest) =
      parseDigitsCnt (acc * 10 ^ (natLE n).length + n) (cnt + (natLE n).length) rest := by
  induction n using natLE.induct with
  | case1 n h =>
    intro acc cnt rest
    have hlen : natLE n = [n] := by rw [natLE, dif_pos h]
    have hpn : printNat n = [digitChar n] := by rw [printNat, hlen]; rfl
    rw [hpn, hlen]
    simp only [List.cons_append, List.nil_append, List.length_cons, List.length_nil]
    rw [parseDigitsCnt]
    rw [if_pos (digitChar_isDigit n h)]
    rw [digitChar_toNat n h]
    have h10 : 10 * acc + n = acc * 10 ^ 1 + n := by ring
    rw [h10]
  | case2 n h ih =>
    intro acc cnt rest
    have hsplit : printNat n = printNat (n / 10) ++ [digitChar (n % 10)] := by
      rw [printNat]
      conv_lhs => rw [natLE]
      rw [dif_neg h]
      simp [printNat]
    rw [hsplit, List.append_assoc]
    rw [ih]
    simp only [List.cons_append, List.nil_append]
    rw [parseDigitsCnt]
    rw [if_pos (digitChar_isDigit _ (by omega))]
    rw [digitChar_toNat _ (by omega)]
    have hlen : (natLE n).length = (natLE (n / 10)).length + 1 := by
      conv_lhs => rw [natLE]
      rw [dif_neg h]
      simp
    rw [hlen]
    have : 10 * (acc * 10 ^ (natLE (n / 10)).length + n / 10) + n % 10 =
        acc * 10 ^ ((natLE (n / 10)).length + 1) + n := by
      rw [pow_succ]; ring_nf; omega
    rw [this]
    ring_nf

theorem parseDigitsCnt_nil (acc cnt : ℕ) : parseDigitsCnt acc cnt [] = (acc, cnt, []) := rfl

theorem parseDigitsCnt_stop (acc cnt : ℕ) (c : Char) (cs : List Char)
    (h : c.isDigit = false) :
    parseDigitsCnt acc cnt (c :: cs) = (acc, cnt, c :: cs) := by
  rw [parseDigitsCnt]
  simp [h]

theorem parseDigitsCnt_replicate0 (j : ℕ) : ∀ (acc cnt : ℕ) (rest : List Char),
    parseDigitsCnt acc cnt (List.replicate j '0' ++ rest) =
      parseDigitsCnt (acc * 10 ^ j) (cnt + j) rest := by
  induction j with
  | zero => intro acc cnt rest; simp
  | succ j ih =>
    intro acc cnt rest
    rw [List.replicate_succ]
    simp only [List.cons_append]
    rw [parseDigitsCnt]
    rw [if_pos (by decide)]
    rw [ih]
    have h1 : (10 * acc + ('0'.toNat - 48)) * 10 ^ j = acc * 10 ^ (j + 1) := by
      have : '0'.toNat - 48 = 0 := by decide
      rw [this, pow_succ]; ring
    rw [h1]
    ring_nf

theorem natLE_length_le (n k : ℕ) (hk : 1 ≤ k) (h : n < 10 ^ k) :
    (natLE n).length ≤ k := by
  induction n using natLE.induct generalizing k with
  | case1 n hn => rw [natLE, dif_pos hn]; simpa using hk
  | case2 n hn ih =>
    rw [natLE, dif_neg hn]
    simp only [List.length_cons]
    have hk2 : 2 ≤ k := by
      by_contra hc
      interval_cases k
      · omega
    have : n / 10 < 10 ^ (k - 1) := by
      have h10 : 10 ^ k = 10 ^ (k - 1) * 10 := by
        conv_lhs => rw [show k = (k - 1) + 1 by omega]
        rw [pow_succ]
      omega
    have := ih (k - 1) (by omega) this
    omega

theorem parseDigitsCnt_padFrac (k n : ℕ) (hk : 1 ≤ k) (h : n < 10 ^ k)
    (acc cnt : ℕ) (rest : List Char) :
    parseDigitsCnt acc cnt (padFrac k n ++ rest) =
      parseDigitsCnt (acc * 10 ^ k + n) (cnt + k) rest := by
  rw [padFrac, List.append_assoc, parseDigitsCnt_replicate0, parseDigitsCnt_printNat]
  have hlen : (natLE n).length ≤ k := natLE_length_le n k hk h
  have h1 : acc * 10 ^ (k - (natLE n).length) * 10 ^ (natLE n).length = acc * 10 ^ k := by
    rw [mul_assoc, ← pow_add]
    congr 2
    omega
  rw [h1]
  congr 1
  omega

theorem parseDigitsCnt_pad2 (m : ℕ) (acc cnt : ℕ) (rest : List Char) :
    parseDigitsCnt acc cnt (pad2 m ++ rest) =
      parseDigitsCnt (acc * 100 + m % 100) (cnt + 2) rest := by
  simp only [pad2, List.cons_append, List.nil_append]
  rw [parseDigitsCnt, if_pos (digitChar_isDigit _ (by omega)), digitChar_toNat _ (by omega)]
  rw [parseDigitsCnt, if_pos (digitChar_isDigit _ (by omega)), digitChar_toNat _ (by omega)]
  have : 10 * (10 * acc + m / 10 % 10) + m % 10 = acc * 100 + m % 100 := by omega
  rw [this]

theorem parseMantissa_print (i f2 : ℕ) :
    parseMantissa (printNat i ++ '.' :: pad2 f2) =
      some ((i : ℚ) + (f2 % 100 : ℕ) / 100, []) := by
  obtain ⟨c, cs', hcons⟩ := List.exists_cons_of_ne_nil
    (show printNat i ++ '.' :: pad2 f2 ≠ [] by simp)
  have hcdig : c.isDigit = true := by
    have hmem : c ∈ printNat i := by
      have hne := printNat_ne_nil i
      obtain ⟨d, ds, hd⟩ := List.exists_cons_of_ne_nil hne
      rw [hd] at hcons
      simp only [List.cons_append] at hcons
      rw [hd]
      exact (List.cons.injEq .. ▸ hcons).1 ▸ List.mem_cons_self d ds
    exact printNat_all_digits i c hmem
  rw [hcons, parseMantissa]
  simp only [hcdig, if_true]
  rw [← hcons]
  rw [parseDigitsCnt_printNat]
  simp only [zero_mul, zero_add, Nat.zero_add]
  rw [parseDigitsCnt_stop _ _ _ _ (by decide)]
  have h2 : parseDigitsCnt 0 0 (pad2 f2) = (f2 % 100, 2, []) := by
    have := parseDigitsCnt_pad2 f2 0 0 []
    simpa using this
  simp [h2]
  norm_num

theorem parseFloat_print_nonneg (i f2 : ℕ) (hf : f2 < 100) :
    parseFloat (String.mk (printNat i ++ '.' :: pad2 f2)) =
      some ((i : ℚ) + (f2 : ℕ) / 100) := by
  rw [parseFloat]
  obtain ⟨c, cs2, hcons⟩ := List.exists_cons_of_ne_nil
    (show printNat i ++ '.' :: pad2 f2 ≠ [] by simp)
  have hmem : c ∈ printNat i := by
    have hne := printNat_ne_nil i
    obtain ⟨d, ds, hd⟩ := List.exists_cons_of_ne_nil hne
    rw [hd] at hcons
    simp only [List.cons_append] at hcons
    rw [hd]
    exact (List.cons.injEq .. ▸ hcons).1 ▸ List.mem_cons_self d ds
  have hcdig : c.isDigit = true := printNat_all_digits i c hmem
  have hnws : ((String.mk (printNat i ++ '.' :: pad2 f2)).data).dropWhile Char.isWhitespace
      = c :: cs2 := by
    rw [show (String.mk (printNat i ++ '.' :: pad2 f2)).data = c :: cs2 from hcons]
    rw [List.dropWhile_cons]
    simp [digit_not_ws c hcdig]
  rw [hnws]
  split
  rename_i x sgn cs3 heq
  split at heq
  · rename_i cs4 rest hpat
    injection hpat with hc ht
    rw [hc] at hcdig
    exact absurd hcdig (by decide)
  · rename_i cs4 rest hpat
    injection hpat with hc ht
    rw [hc] at hcdig
    exact absurd hcdig (by decide)
  · injection heq with hsgn hcs
    subst hsgn
    subst hcs
    rw [← hcons, parseMantissa_print]
    simp only []
    rw [show parseExponent [] = some ((0 : ℤ), ([] : List Char)) from rfl]
    simp only [List.dropWhile_nil, if_pos rfl]
    rw [Nat.mod_eq_of_lt hf]
    norm_num

theorem parseFloat_print_neg (i f2 : ℕ) (hf : f2 < 100) :
    parseFloat (String.mk ('-' :: (printNat i ++ '.' :: pad2 f2))) =
      some (-((i : ℚ) + (f2 : ℕ) / 100)) := by
  rw [parseFloat]
  have hnws : ((String.mk ('-' :: (printNat i ++ '.' :: pad2 f2))).data).dropWhile
      Char.isWhitespace = '-' :: (printNat i ++ '.' :: pad2 f2) := by
    rw [show (String.mk ('-' :: (printNat i ++ '.' :: pad2 f2))).data =
      '-' :: (printNat i ++ '.' :: pad2 f2) from rfl]
    rw [List.dropWhile_cons]
    simp
  rw [hnws]
  split
  rename_i x sgn cs3 heq
  split at heq
  · rename_i cs4 rest hpat
    injection hpat with hc ht
    injection heq with hsgn hcs
    subst hsgn
    subst hcs
    rw [← ht, parseMantissa_print]
    simp only []
    rw [show parseExponent [] = some ((0 : ℤ), ([] : List Char)) from rfl]
    simp only [List.dropWhile_nil, if_pos rfl]
    rw [Nat.mod_eq_of_lt hf]
    norm_num
  · rename_i cs4 rest hpat
    injection hpat with hc ht
    exact absurd hc (by decide)
  · rename_i hno1 hno2
    exact ((hno1 (printNat i ++ '.' :: pad2 f2)) rfl).elim

theorem cast_div_add_mod_100 (a : ℕ) :
    ((a / 100 : ℕ) : ℚ) + ((a % 100 : ℕ) : ℚ) / 100 = (a : ℚ) / 100 := by
  have h : 100 * (a / 100) + a % 100 = a := Nat.div_add_mod a 100
  have h2 : ((a : ℚ)) = 100 * ((a / 100 : ℕ) : ℚ) + ((a % 100 : ℕ) : ℚ) := by
    exact_mod_cast congrArg (fun n : ℕ => (n : ℚ)) h.symm
  rw [h2]
  ring

/-- `float(f"\x7bx:.2f\x7d")` recovers exactly `round(x, 2)`. -/
theorem parseFloat_fmt2 (q : ℚ) : parseFloat (fmt2 q) = some (round2 q) := by
  rw [fmt2, round2]
  split
  · rename_i hneg
    have hsh : ('-' :: printNat ((roundEven (100 * q)).natAbs / 100)) ++
        '.' :: pad2 ((roundEven (100 * q)).natAbs % 100) =
        '-' :: (printNat ((roundEven (100 * q)).natAbs / 100) ++
          '.' :: pad2 ((roundEven (100 * q)).natAbs % 100)) := by
      simp
    rw [hsh]
    rw [parseFloat_print_neg ((roundEven (100 * q)).natAbs / 100)
      ((roundEven (100 * q)).natAbs % 100) (Nat.mod_lt _ (by omega))]
    congr 1
    rw [cast_div_add_mod_100]
    have hcast : (((roundEven (100 * q)).natAbs : ℕ) : ℚ) =
        -(((roundEven (100 * q)) : ℤ) : ℚ) := by
      rw [Int.cast_natAbs]
      rw [abs_of_neg hneg]
      push_cast
      ring
    rw [hcast]
    ring
  · rename_i hpos
    rw [parseFloat_print_nonneg ((roundEven (100 * q)).natAbs / 100)
      ((roundEven (100 * q)).natAbs % 100) (Nat.mod_lt _ (by omega))]
    congr 1
    rw [cast_div_add_mod_100]
    congr 1
    rw [Int.cast_natAbs]
    rw [abs_of_nonneg (not_lt.mp hpos)]

/- ### JSON string escape round trip -/

theorem hexVal_hexDigitL (d : ℕ) (h : d < 16) : hexVal (hexDigitL d) = some d := by
  interval_cases d <;> decide

theorem parseHex4_hex4Lower (n : ℕ) (h : n < 65536) (rest : List Char) :
    parseHex4 (hex4Lower n ++ rest) = some (n, rest) := by
  simp only [hex4Lower, List.cons_append, List.nil_append, parseHex4]
  rw [hexVal_hexDigitL _ (by omega), hexVal_hexDigitL _ (by omega),
    hexVal_hexDigitL _ (by omega), hexVal_hexDigitL _ (by omega)]
  simp only []
  congr 2
  omega

theorem char_valid_nat (c : Char) :
    c.toNat < 0xd800 ∨ (0xdfff < c.toNat ∧ c.toNat < 0x110000) := by
  have h := c.valid
  unfold UInt32.isValidChar Nat.isValidChar at h
  exact h

theorem parseJStr_step_plain (f : ℕ) (c : Char) (acc tail : List Char)
    (h1 : c ≠ '"') (h2 : c ≠ '\\') (h3 : ¬ c.toNat < 0x20) :
    parseJStr (f + 1) acc (c :: tail) = parseJStr f (c :: acc) tail := by
  rw [parseJStr.eq_def]
  simp only []
  rw [if_neg h1, if_neg h2, if_neg h3]

theorem parseJStr_step_esc (f : ℕ) (e ch : Char) (acc tail : List Char)
    (he : ¬ e = 'u')
    (hc : (if e = '"' then some '"' else if e = '\\' then some '\\'
      else if e = '/' then some '/' else if e = 'b' then some '\x08'
      else if e = 'f' then some '\x0c' else if e = 'n' then some '\n'
      else if e = 'r' then some '\r' else if e = 't' then some '\t'
      else none) = some ch) :
    parseJStr (f + 1) acc ('\\' :: e :: tail) = parseJStr f (ch :: acc) tail := by
  rw [parseJStr.eq_def]
  simp only []
  rw [if_neg (show ¬ ('\\' : Char) = '"' by decide)]
  rw [if_pos trivial]
  rw [hc]

theorem parseJStr_step_u (f : ℕ) (n : ℕ) (acc tail : List Char)
    (hlt : n < 0x10000) (hns : ¬ (0xD800 ≤ n ∧ n ≤ 0xDBFF)) :
    parseJStr (f + 1) acc ('\\' :: 'u' :: (hex4Lower n ++ tail)) =
      parseJStr f (Char.ofNat n :: acc) tail := by
  rw [parseJStr.eq_def]
  simp only []
  rw [if_neg (show ¬ ('\\' : Char) = '"' by decide)]
  rw [if_pos trivial]
  rw [parseHex4_hex4Lower n hlt]
  simp only []
  rw [if_neg hns]

theorem parseJStr_step_surr (f : ℕ) (n m : ℕ) (acc tail : List Char)
    (hn : 0xD800 ≤ n ∧ n ≤ 0xDBFF) (hm : 0xDC00 ≤ m ∧ m ≤ 0xDFFF) :
    parseJStr (f + 1) acc
        ('\\' :: 'u' :: (hex4Lower n ++ '\\' :: 'u' :: (hex4Lower m ++ tail))) =
      parseJStr f (Char.ofNat (0x10000 + (n - 0xD800) * 0x400 + (m - 0xDC00)) :: acc) tail := by
  rw [parseJStr.eq_def]
  simp only []
  rw [if_neg (show ¬ ('\\' : Char) = '"' by decide)]
  rw [if_pos trivial]
  rw [parseHex4_hex4Lower n (by omega)]
  simp only []
  rw [if_pos hn]
  rw [parseHex4_hex4Lower m (by omega)]
  simp only []
  rw [if_pos hm]

theorem parseJStr_dump (s : List Char) : ∀ (acc rest : List Char) (fuel : ℕ),
    (s.map dumpJChar).flatten.length + 1 ≤ fuel →
    parseJStr fuel acc ((s.map dumpJChar).flatten ++ '"' :: rest) =
      some (String.mk (acc.reverse ++ s), rest) := by
  induction s with
  | nil =>
    intro acc rest fuel hf
    obtain ⟨f, rfl⟩ : ∃ f, fuel = f + 1 := ⟨fuel - 1, by omega⟩
    rw [parseJStr.eq_def]
    simp
  | cons c cs ih =>
    intro acc rest fuel hf
    simp only [List.map_cons, List.flatten_cons, List.length_append, List.append_assoc] at hf ⊢
    obtain ⟨f, rfl⟩ : ∃ f, fuel = f + 1 := ⟨fuel - 1, by omega⟩
    have hpos : 1 ≤ (dumpJChar c).length := by
      rw [dumpJChar]
      split_ifs <;> simp
    have hfin : (List.map dumpJChar cs).flatten.length + 1 ≤ f := by omega
    by_cases h1 : c = '"'
    · subst h1
      rw [show dumpJChar '"' = ['\\', '"'] from rfl]
      simp only [List.cons_append, List.nil_append]
      rw [parseJStr_step_esc f '"' '"' acc _ (by decide) (by decide), ih _ rest f hfin]
      simp
    · by_cases h2 : c = '\\'
      · subst h2
        rw [show dumpJChar '\\' = ['\\', '\\'] from rfl]
        simp only [List.cons_append, List.nil_append]
        rw [parseJStr_step_esc f '\\' '\\' acc _ (by decide) (by decide), ih _ rest f hfin]
        simp
      · by_cases h3 : c = '\n'
        · subst h3
          rw [show dumpJChar '\n' = ['\\', 'n'] from rfl]
          simp only [List.cons_append, List.nil_append]
          rw [parseJStr_step_esc f 'n' '\n' acc _ (by decide) (by decide), ih _ rest f hfin]
          simp
        · by_cases h4 : c = '\t'
          · subst h4
            rw [show dumpJChar '\t' = ['\\', 't'] from rfl]
            simp only [List.cons_append, List.nil_append]
            rw [parseJStr_step_esc f 't' '\t' acc _ (by decide) (by decide), ih _ rest f hfin]
            simp
          · by_cases h5 : c = '\r'
            · subst h5
              rw [show dumpJChar '\r' = ['\\', 'r'] from rfl]
              simp only [List.cons_append, List.nil_append]
              rw [parseJStr_step_esc f 'r' '\r' acc _ (by decide) (by decide),
                ih _ rest f hfin]
              simp
            · by_cases h6 : c = '\x08'
              · subst h6
                rw [show dumpJChar '\x08' = ['\\', 'b'] from rfl]
                simp only [List.cons_append, List.nil_append]
                rw [parseJStr_step_esc f 'b' '\x08' acc _ (by decide) (by decide),
                  ih _ rest f hfin]
                simp
              · by_cases h7 : c = '\x0c'
                · subst h7
                  rw [show dumpJChar '\x0c' = ['\\', 'f'] from rfl]
                  simp only [List.cons_append, List.nil_append]
                  rw [parseJStr_step_esc f 'f' '\x0c' acc _ (by decide) (by decide),
                    ih _ rest f hfin]
                  simp
                · by_cases h8 : 0x20 ≤ c.toNat ∧ c.toNat ≤ 0x7e
                  · have hd : dumpJChar c = [c] := by
                      rw [dumpJChar]
                      rw [if_neg h1, if_neg h2, if_neg h3, if_neg h4, if_neg h5, if_neg h6,
                        if_neg h7, if_pos h8]
                    rw [hd]
                    simp only [List.cons_append, List.nil_append]
                    rw [parseJStr_step_plain f c acc _ h1 h2 (by omega), ih _ rest f hfin]
                    simp
                  · by_cases h9 : c.toNat < 0x10000
                    · have hd : dumpJChar c = '\\' :: 'u' :: hex4Lower c.toNat := by
                        rw [dumpJChar]
                        rw [if_neg h1, if_neg h2, if_neg h3, if_neg h4, if_neg h5, if_neg h6,
                          if_neg h7, if_neg h8, if_pos h9]
                      rw [hd]
                      simp only [List.cons_append, List.append_assoc]
                      have hv := char_valid_nat c
                      rw [parseJStr_step_u f c.toNat acc _ h9 (by omega),
                        Char.ofNat_toNat, ih _ rest f hfin]
                      simp
                    · have hd : dumpJChar c =
                          '\\' :: 'u' :: (hex4Lower (0xD800 + (c.toNat - 0x10000) / 0x400) ++
                            '\\' :: 'u' :: hex4Lower (0xDC00 + (c.toNat - 0x10000) % 0x400)) := by
                        rw [dumpJChar]
                        rw [if_neg h1, if_neg h2, if_neg h3, if_neg h4, if_neg h5, if_neg h6,
                          if_neg h7, if_neg h8, if_neg h9]
                        simp
                      rw [hd]
                      have hv := char_valid_nat c
                      simp only [List.cons_append, List.append_assoc]
                      rw [parseJStr_step_surr f _ _ acc _
                        (by constructor <;> omega) (by constructor <;> omega)]
                      have harith : 0x10000 +
                          (0xD800 + (c.toNat - 0x10000) / 0x400 - 0xD800) * 0x400 +
                          (0xDC00 + (c.toNat - 0x10000) % 0x400 - 0xDC00) = c.toNat := by
                        omega
                      rw [harith, Char.ofNat_toNat, ih _ rest f hfin]
                      simp

/- ### Exact decimals and `dumpFloat` -/

theorem decDigitsOf_pos (d k : ℕ) (h : decDigitsOf d = some k) : 1 ≤ k := by
  rw [decDigitsOf] at h
  split_ifs at h with h1
  · simp only [Option.some.injEq] at h
    omega

theorem decDigitsOf_dvd (d k : ℕ) (h : decDigitsOf d = some k) : d ∣ 10 ^ k := by
  rw [decDigitsOf] at h
  split_ifs at h with h1
  · simp only [Option.some.injEq] at h
    have h10 : (10 : ℕ) ^ k = 2 ^ k * 5 ^ k := by
      rw [show (10 : ℕ) = 2 * 5 by norm_num, mul_pow]
    rw [h10, ← h1]
    exact mul_dvd_mul (pow_dvd_pow 2 (by omega)) (pow_dvd_pow 5 (by omega))

theorem exact_decimal_num (q : ℚ) (k : ℕ) (hk : decDigitsOf q.den = some k) :
    (q * 10 ^ k : ℚ) = (((q * 10 ^ k : ℚ).num : ℤ) : ℚ) ∧
      q = (((q * 10 ^ k : ℚ).num : ℤ) : ℚ) / 10 ^ k := by
  obtain ⟨m, hm⟩ := decDigitsOf_dvd q.den k hk
  have hden : (q.den : ℚ) ≠ 0 := by
    exact_mod_cast q.den_nz
  have hq1 : q * 10 ^ k = ((q.num * m : ℤ) : ℚ) := by
    conv_lhs => rw [← Rat.num_div_den q]
    have h10 : ((10 : ℚ)) ^ k = ((10 ^ k : ℕ) : ℚ) := by push_cast; ring
    rw [h10, hm]
    push_cast
    field_simp
    ring
  have hnum : (q * 10 ^ k : ℚ).num = q.num * m := by
    rw [hq1, Rat.num_intCast]
  refine ⟨by rw [hnum, ← hq1], ?_⟩
  rw [hnum, ← hq1]
  have h10 : ((10 : ℚ)) ^ k ≠ 0 := by positivity
  field_simp

theorem cast_div_add_mod (a b : ℕ) (hb : b ≠ 0) :
    ((a / b : ℕ) : ℚ) + ((a % b : ℕ) : ℚ) / b = (a : ℚ) / b := by
  have h : b * (a / b) + a % b = a := Nat.div_add_mod a b
  have hb2 : (b : ℚ) ≠ 0 := by exact_mod_cast hb
  have h2 : ((a : ℚ)) = (b : ℚ) * ((a / b : ℕ) : ℚ) + ((a % b : ℕ) : ℚ) := by
    exact_mod_cast congrArg (fun n : ℕ => (n : ℚ)) h.symm
  rw [h2]
  field_simp
  ring

theorem cast_div_add_mod_pow (a k : ℕ) :
    ((a / 10 ^ k : ℕ) : ℚ) + ((a % 10 ^ k : ℕ) : ℚ) / (10 : ℚ) ^ k =
      (a : ℚ) / (10 : ℚ) ^ k := by
  have h := cast_div_add_mod a (10 ^ k) (by positivity)
  push_cast at h
  exact h

/- ### `jsonVal` on dumped payload pieces -/

theorem skipWs_cons (c : Char) (l : List Char) (h : jsonWs c = false) :
    skipWs (c :: l) = c :: l := by
  rw [skipWs, List.dropWhile_cons, h]
  simp

theorem jsonVal_dumpJStr (s : String) (f : ℕ) (tail : List Char) :
    jsonVal (f + 1) (dumpJStr s ++ tail) = some (.jstr s, tail) := by
  obtain ⟨d⟩ := s
  have hshape : dumpJStr (String.mk d) ++ tail =
      '"' :: ((d.map dumpJChar).flatten ++ '"' :: tail) := by
    rw [dumpJStr]
    simp
  rw [hshape, jsonVal, skipWs_cons _ _ (by decide)]
  simp only [if_pos rfl]
  rw [parseJStr_dump d [] tail _ (by simp only [List.length_append, List.length_cons]; omega)]
  simp

theorem jsonVal_null (f : ℕ) (tail : List Char) :
    jsonVal (f + 1) ('n' :: 'u' :: 'l' :: 'l' :: tail) = some (.null, tail) := rfl

theorem jsonWs_of_digit (c : Char) (h : c.isDigit = true) : jsonWs c = false := by
  have hr := isDigit_toNat c h
  rw [jsonWs]
  simp only [Bool.or_eq_false_iff, decide_eq_false_iff_not]
  refine ⟨⟨⟨?_, ?_⟩, ?_⟩, ?_⟩ <;>
    · intro he
      rw [he] at hr
      revert hr
      decide

theorem parseExponent_rbrace (tl : List Char) :
    parseExponent (rbrace :: tl) = some (0, rbrace :: tl) := rfl

theorem jsonVal_digits (i fr k : ℕ) (hk : 1 ≤ k) (hfr : fr < 10 ^ k)
    (f : ℕ) (tl : List Char) :
    jsonVal (f + 1) (printNat i ++ '.' :: (padFrac k fr ++ rbrace :: tl)) =
      some (.jnum ((i : ℚ) + (fr : ℚ) / 10 ^ k), rbrace :: tl) := by
  obtain ⟨c, cs', hcons⟩ := List.exists_cons_of_ne_nil
    (show printNat i ++ '.' :: (padFrac k fr ++ rbrace :: tl) ≠ [] by simp)
  have hmem : c ∈ printNat i := by
    have hne := printNat_ne_nil i
    obtain ⟨d, ds, hd⟩ := List.exists_cons_of_ne_nil hne
    rw [hd] at hcons
    simp only [List.cons_append] at hcons
    rw [hd]
    exact (List.cons.injEq .. ▸ hcons).1 ▸ List.mem_cons_self d ds
  have hcdig : c.isDigit = true := printNat_all_digits i c hmem
  have hdigrange : 48 ≤ c.toNat ∧ c.toNat ≤ 57 := isDigit_toNat c hcdig
  have hq : ¬ c = '"' := fun he => by rw [he] at hdigrange; revert hdigrange; decide
  have hlb : ¬ c = lbrace := fun he => by
    rw [he] at hdigrange; revert hdigrange; rw [lbrace]; decide
  have hbr : ¬ c = '[' := fun he => by rw [he] at hdigrange; revert hdigrange; decide
  have ht : ¬ c = 't' := fun he => by rw [he] at hdigrange; revert hdigrange; decide
  have hf' : ¬ c = 'f' := fun he => by rw [he] at hdigrange; revert hdigrange; decide
  have hn : ¬ c = 'n' := fun he => by rw [he] at hdigrange; revert hdigrange; decide
  have hmi : ¬ c = '-' := fun he => by rw [he] at hdigrange; revert hdigrange; decide
  rw [jsonVal]
  have hskip : skipWs (printNat i ++ '.' :: (padFrac k fr ++ rbrace :: tl)) = c :: cs' := by
    rw [hcons, skipWs_cons _ _ (jsonWs_of_digit c hcdig)]
  rw [hskip]
  simp only [if_neg hq, if_neg hlb, if_neg hbr, if_neg ht, if_neg hf', if_neg hn,
    if_neg hmi]
  have hhead : ((c :: cs').head?.map Char.isDigit).getD false = true := by
    simp [hcdig]
  rw [hhead]
  simp only [if_true]
  have hparse : parseDigitsCnt 0 0 (c :: cs') =
      (i, (natLE i).length, '.' :: (padFrac k fr ++ rbrace :: tl)) := by
    rw [← hcons, parseDigitsCnt_printNat, parseDigitsCnt_stop _ _ _ _ (by decide)]
    simp
  rw [hparse]
  simp only []
  have hfrac : parseDigitsCnt 0 0 (padFrac k fr ++ rbrace :: tl) =
      (fr, k, rbrace :: tl) := by
    rw [parseDigitsCnt_padFrac k fr hk hfr, parseDigitsCnt_stop _ _ _ _ (by rw [rbrace]; decide)]
    simp [Nat.mod_eq_of_lt hfr]
  rw [hfrac]
  simp only []
  rw [if_neg (by omega : ¬ k = 0)]
  rw [parseExponent_rbrace]
  simp

theorem jsonVal_digits_neg (i fr k : ℕ) (hk : 1 ≤ k) (hfr : fr < 10 ^ k)
    (f : ℕ) (tl : List Char) :
    jsonVal (f + 1) ('-' :: (printNat i ++ '.' :: (padFrac k fr ++ rbrace :: tl))) =
      some (.jnum (-((i : ℚ) + (fr : ℚ) / 10 ^ k)), rbrace :: tl) := by
  rw [jsonVal]
  rw [skipWs_cons _ _ (by decide)]
  simp only [if_neg (by decide : ¬ ('-' : Char) = '"'),
    if_neg (by rw [lbrace]; decide : ¬ ('-' : Char) = lbrace),
    if_neg (by decide : ¬ ('-' : Char) = '['),
    if_neg (by decide : ¬ ('-' : Char) = 't'),
    if_neg (by decide : ¬ ('-' : Char) = 'f'),
    if_neg (by decide : ¬ ('-' : Char) = 'n'),
    if_pos (rfl : ('-' : Char) = '-')]
  obtain ⟨c, cs', hcons⟩ := List.exists_cons_of_ne_nil
    (show printNat i ++ '.' :: (padFrac k fr ++ rbrace :: tl) ≠ [] by simp)
  have hmem : c ∈ printNat i := by
    have hne := printNat_ne_nil i
    obtain ⟨d, ds, hd⟩ := List.exists_cons_of_ne_nil hne
    rw [hd] at hcons
    simp only [List.cons_append] at hcons
    rw [hd]
    exact (List.cons.injEq .. ▸ hcons).1 ▸ List.mem_cons_self d ds
  have hcdig : c.isDigit = true := printNat_all_digits i c hmem
  rw [hcons]
  rw [if_pos trivial]
  simp only []
  have hhead : ((c :: cs').head?.map Char.isDigit).getD false = true := by
    simp [hcdig]
  rw [hhead]
  simp only [if_true]
  have hparse : parseDigitsCnt 0 0 (c :: cs') =
      (i, (natLE i).length, '.' :: (padFrac k fr ++ rbrace :: tl)) := by
    rw [← hcons, parseDigitsCnt_printNat, parseDigitsCnt_stop _ _ _ _ (by decide)]
    simp
  rw [hparse]
  simp only []
  have hfrac : parseDigitsCnt 0 0 (padFrac k fr ++ rbrace :: tl) =
      (fr, k, rbrace :: tl) := by
    rw [parseDigitsCnt_padFrac k fr hk hfr, parseDigitsCnt_stop _ _ _ _ (by rw [rbrace]; decide)]
    simp [Nat.mod_eq_of_lt hfr]
  rw [hfrac]
  simp only []
  rw [if_neg (by omega : ¬ k = 0)]
  rw [parseExponent_rbrace]
  simp

theorem dumpFloat_data (q : ℚ) (k : ℕ) (hk : decDigitsOf q.den = some k) :
    (dumpFloat q).data =
      (if (q * 10 ^ k).num < 0 then
        '-' :: (printNat ((q * 10 ^ k).num.natAbs / 10 ^ k) ++
          '.' :: padFrac k ((q * 10 ^ k).num.natAbs % 10 ^ k))
      else printNat ((q * 10 ^ k).num.natAbs / 10 ^ k) ++
          '.' :: padFrac k ((q * 10 ^ k).num.natAbs % 10 ^ k)) := by
  rw [dumpFloat, hk]
  by_cases hn : (q * 10 ^ k).num < 0
  · simp only [if_pos hn]
  · simp only [if_neg hn]

theorem jsonVal_dumpFloat (q : ℚ) (k : ℕ) (hk : decDigitsOf q.den = some k)
    (f : ℕ) (tl : List Char) :
    jsonVal (f + 1) ((dumpFloat q).data ++ rbrace :: tl) = some (.jnum q, rbrace :: tl) := by
  have hk1 := decDigitsOf_pos _ _ hk
  obtain ⟨hint, hq⟩ := exact_decimal_num q k hk
  have hlt : (q * 10 ^ k).num.natAbs % 10 ^ k < 10 ^ k :=
    Nat.mod_lt _ (pow_pos (by norm_num) k)
  rw [dumpFloat_data q k hk]
  by_cases hneg : (q * 10 ^ k).num < 0
  · rw [if_pos hneg]
    simp only [List.cons_append, List.append_assoc, List.cons_append]
    rw [jsonVal_digits_neg _ _ k hk1 hlt f tl]
    have hval : -((((q * 10 ^ k).num.natAbs / 10 ^ k : ℕ) : ℚ) +
        (((q * 10 ^ k).num.natAbs % 10 ^ k : ℕ) : ℚ) / (10 : ℚ) ^ k) = q := by
      rw [cast_div_add_mod_pow]
      rw [show (((q * 10 ^ k).num.natAbs : ℕ) : ℚ) = -(((q * 10 ^ k).num : ℤ) : ℚ) from by
        rw [Int.cast_natAbs, abs_of_neg hneg]
        push_cast
        ring]
      conv_rhs => rw [hq]
      ring
    rw [hval]
  · rw [if_neg hneg]
    simp only [List.append_assoc, List.cons_append]
    rw [jsonVal_digits _ _ k hk1 hlt f tl]
    have hval : ((((q * 10 ^ k).num.natAbs / 10 ^ k : ℕ) : ℚ) +
        (((q * 10 ^ k).num.natAbs % 10 ^ k : ℕ) : ℚ) / (10 : ℚ) ^ k) = q := by
      rw [cast_div_add_mod_pow]
      rw [show (((q * 10 ^ k).num.natAbs : ℕ) : ℚ) = (((q * 10 ^ k).num : ℤ) : ℚ) from by
        rw [Int.cast_natAbs, abs_of_nonneg (not_lt.mp hneg)]]
      conv_rhs => rw [hq]
    rw [hval]

theorem jsonVal_ws (f : ℕ) (l : List Char) :
    jsonVal (f + 1) (' ' :: l) = jsonVal (f + 1) l := by
  rw [jsonVal]
  conv_rhs => rw [jsonVal]
  have h : skipWs (' ' :: l) = skipWs l := by
    rw [skipWs, skipWs, List.dropWhile_cons, if_pos (show jsonWs ' ' = true by decide)]
  rw [h]

theorem jsonVal_lbrace (f : ℕ) (l : List Char) :
    jsonVal (f + 1) (lbrace :: l) = jsonObjBody f l := rfl

theorem jsonMembers_amount_null (f : ℕ) (tail : List Char) :
    jsonMembers (f + 2)
        (' ' :: ("\"amount\": ".data ++ ('n' :: 'u' :: 'l' :: 'l' :: rbrace :: tail))) =
      some ([("amount", PyJson.null)], tail) := by
  rw [jsonMembers]
  have hskip : skipWs (' ' :: ("\"amount\": ".data ++
      ('n' :: 'u' :: 'l' :: 'l' :: rbrace :: tail))) =
      '"' :: ('a' :: 'm' :: 'o' :: 'u' :: 'n' :: 't' :: '"' :: ':' :: ' ' ::
        ('n' :: 'u' :: 'l' :: 'l' :: rbrace :: tail)) := by
    rw [skipWs]
    simp [jsonWs]
  rw [hskip]
  simp only []
  have hsh : ('a' :: 'm' :: 'o' :: 'u' :: 'n' :: 't' :: '"' :: ':' :: ' ' ::
      ('n' :: 'u' :: 'l' :: 'l' :: rbrace :: tail)) =
      ("amount".data.map dumpJChar).flatten ++ '"' :: (':' :: ' ' ::
        ('n' :: 'u' :: 'l' :: 'l' :: rbrace :: tail)) := by
    have h1 : ("amount".data.map dumpJChar).flatten = ['a', 'm', 'o', 'u', 'n', 't'] := by
      decide
    rw [h1]
    rfl
  rw [hsh, parseJStr_dump "amount".data [] _ _ (by simp)]
  simp only [List.nil_append]
  have hskip2 : skipWs (':' :: ' ' :: ('n' :: 'u' :: 'l' :: 'l' :: rbrace :: tail)) =
      ':' :: ' ' :: ('n' :: 'u' :: 'l' :: 'l' :: rbrace :: tail) :=
    skipWs_cons _ _ (by decide)
  rw [hskip2]
  simp only []
  rw [jsonVal_ws, jsonVal_null]
  simp only []
  have hskip3 : skipWs (rbrace :: tail) = rbrace :: tail :=
    skipWs_cons _ _ (by rw [rbrace]; decide)
  rw [hskip3]
  rfl

theorem jsonMembers_amount_num (q : ℚ) (k : ℕ) (hk : decDigitsOf q.den = some k)
    (f : ℕ) (tail : List Char) :
    jsonMembers (f + 2)
        (' ' :: ("\"amount\": ".data ++ ((dumpFloat q).data ++ rbrace :: tail))) =
      some ([("amount", PyJson.jnum q)], tail) := by
  rw [jsonMembers]
  have hskip : skipWs (' ' :: ("\"amount\": ".data ++
      ((dumpFloat q).data ++ rbrace :: tail))) =
      '"' :: ('a' :: 'm' :: 'o' :: 'u' :: 'n' :: 't' :: '"' :: ':' :: ' ' ::
        ((dumpFloat q).data ++ rbrace :: tail)) := by
    rw [skipWs]
    simp [jsonWs]
  rw [hskip]
  simp only []
  have hsh : ('a' :: 'm' :: 'o' :: 'u' :: 'n' :: 't' :: '"' :: ':' :: ' ' ::
      ((dumpFloat q).data ++ rbrace :: tail)) =
      ("amount".data.map dumpJChar).flatten ++ '"' :: (':' :: ' ' ::
        ((dumpFloat q).data ++ rbrace :: tail)) := by
    have h1 : ("amount".data.map dumpJChar).flatten = ['a', 'm', 'o', 'u', 'n', 't'] := by
      decide
    rw [h1]
    rfl
  rw [hsh, parseJStr_dump "amount".data [] _ _ (by simp)]
  simp only [List.nil_append]
  have hskip2 : skipWs (':' :: ' ' :: ((dumpFloat q).data ++ rbrace :: tail)) =
      ':' :: ' ' :: ((dumpFloat q).data ++ rbrace :: tail) :=
    skipWs_cons _ _ (by decide)
  rw [hskip2]
  simp only []
  rw [jsonVal_ws, jsonVal_dumpFloat q k hk]
  simp only []
  have hskip3 : skipWs (rbrace :: tail) = rbrace :: tail :=
    skipWs_cons _ _ (by rw [rbrace]; decide)
  rw [hskip3]
  rfl

theorem jsonMembers_name_step (name : String) (f : ℕ) (Y : List Char) :
    jsonMembers (f + 3) ("\"name\": ".data ++ (dumpJStr name ++ (',' :: Y))) =
      (jsonMembers (f + 2) Y).map
        (fun p => (("name", PyJson.jstr name) :: p.1, p.2)) := by
  rw [show f + 3 = (f + 2) + 1 by omega, jsonMembers]
  have hskip : skipWs ("\"name\": ".data ++ (dumpJStr name ++ (',' :: Y))) =
      '"' :: ('n' :: 'a' :: 'm' :: 'e' :: '"' :: ':' :: ' ' ::
        (dumpJStr name ++ (',' :: Y))) := by
    rw [skipWs]
    simp [jsonWs]
  rw [hskip]
  simp only []
  have hsh : ('n' :: 'a' :: 'm' :: 'e' :: '"' :: ':' :: ' ' ::
      (dumpJStr name ++ (',' :: Y))) =
      ("name".data.map dumpJChar).flatten ++ '"' :: (':' :: ' ' ::
        (dumpJStr name ++ (',' :: Y))) := by
    have h1 : ("name".data.map dumpJChar).flatten = ['n', 'a', 'm', 'e'] := by decide
    rw [h1]
    rfl
  rw [hsh, parseJStr_dump "name".data [] _ _ (by simp)]
  simp only [List.nil_append]
  have hskip2 : skipWs (':' :: ' ' :: (dumpJStr name ++ (',' :: Y))) =
      ':' :: ' ' :: (dumpJStr name ++ (',' :: Y)) :=
    skipWs_cons _ _ (by decide)
  rw [hskip2]
  simp only []
  rw [show f + 2 = (f + 1) + 1 by omega, jsonVal_ws, jsonVal_dumpJStr]
  simp only []
  have hskip3 : skipWs (',' :: Y) = ',' :: Y := skipWs_cons _ _ (by decide)
  rw [hskip3]
  rfl

theorem jsonObjBody_payload_shape (f : ℕ) (name : String) (Z : List Char) :
    jsonObjBody (f + 3) ("\"name\": ".data ++ (dumpJStr name ++ (',' :: Z))) =
      (jsonMembers (f + 2) ("\"name\": ".data ++ (dumpJStr name ++ (',' :: Z)))).map
        (fun p => (PyJson.jobj p.1, p.2)) := rfl

theorem jsonVal_lbracket (f : ℕ) (l : List Char) :
    jsonVal (f + 1) ('[' :: l) = jsonArrBody f l := rfl

theorem jsonVal_payload (sp : SharedSplit) (f : ℕ) (tail : List Char)
    (hamt : ∀ q, sp.amount = some q → ∃ j, decDigitsOf q.den = some j) :
    jsonVal (f + 5) (splitPayload sp ++ tail) = some (payloadJson sp, tail) := by
  obtain ⟨name, amount⟩ := sp
  rcases amount with _ | q
  · show jsonVal (f + 5) _ = some (.jobj [("name", .jstr name), ("amount", .null)], tail)
    have hsh : splitPayload ⟨name, none⟩ ++ tail =
        lbrace :: ("\"name\": ".data ++ (dumpJStr name ++ (',' ::
          (' ' :: ("\"amount\": ".data ++
            ('n' :: 'u' :: 'l' :: 'l' :: rbrace :: tail)))))) := by
      simp only [splitPayload, List.cons_append, List.nil_append, List.append_assoc]
    rw [hsh]
    rw [show f + 5 = (f + 4) + 1 by omega, jsonVal_lbrace]
    rw [show f + 4 = (f + 1) + 3 by omega, jsonObjBody_payload_shape]
    rw [show f + 1 + 2 = f + 3 by omega, jsonMembers_name_step]
    rw [jsonMembers_amount_null]
    rfl
  · show jsonVal (f + 5) _ = some (.jobj [("name", .jstr name), ("amount", .jnum q)], tail)
    obtain ⟨j, hj⟩ := hamt q rfl
    have hsh : splitPayload ⟨name, some q⟩ ++ tail =
        lbrace :: ("\"name\": ".data ++ (dumpJStr name ++ (',' ::
          (' ' :: ("\"amount\": ".data ++
            ((dumpFloat q).data ++ rbrace :: tail)))))) := by
      simp only [splitPayload, List.cons_append, List.nil_append, List.append_assoc]
    rw [hsh]
    rw [show f + 5 = (f + 4) + 1 by omega, jsonVal_lbrace]
    rw [show f + 4 = (f + 1) + 3 by omega, jsonObjBody_payload_shape]
    rw [show f + 1 + 2 = f + 3 by omega, jsonMembers_name_step]
    rw [jsonMembers_amount_num q j hj]
    rfl

theorem jsonItems_ws (f : ℕ) (l : List Char) :
    jsonItems (f + 1) (' ' :: l) = jsonItems (f + 1) l := by
  rcases f with _ | k
  · rfl
  · rw [jsonItems.eq_def]
    conv_rhs => rw [jsonItems.eq_def]
    simp only []
    rw [jsonVal_ws]

theorem jsonItems_payloads (sps : List SharedSplit) :
    ∀ (f : ℕ) (tail : List Char),
    (∀ sp ∈ sps, ∀ q, sp.amount = some q → ∃ j, decDigitsOf q.den = some j) →
    sps ≠ [] →
    sps.length + 6 ≤ f →
    jsonItems f (sepJoin (sps.map splitPayload) ++ ']' :: tail) =
      some (sps.map payloadJson, tail) := by
  induction sps with
  | nil => intro f tail _ hne _; exact absurd rfl hne
  | cons sp rest ih =>
    intro f tail hamts hne hf
    rcases rest with _ | ⟨sp2, rest2⟩
    · obtain ⟨h, rfl⟩ : ∃ h, f = (h + 5) + 1 := ⟨f - 6, by simp at hf; omega⟩
      rw [show sepJoin ([sp].map splitPayload) = splitPayload sp from rfl]
      rw [jsonItems.eq_def]
      simp only []
      rw [jsonVal_payload sp h (']' :: tail) (hamts sp (by simp))]
      rfl
    · obtain ⟨h, rfl⟩ : ∃ h, f = (h + 5) + 1 := ⟨f - 6, by simp at hf; omega⟩
      have hsep : sepJoin ((sp :: sp2 :: rest2).map splitPayload) =
          splitPayload sp ++ ',' :: ' ' :: sepJoin ((sp2 :: rest2).map splitPayload) := rfl
      rw [hsep]
      have hassoc : (splitPayload sp ++ ',' :: ' ' ::
            sepJoin ((sp2 :: rest2).map splitPayload)) ++ ']' :: tail =
          splitPayload sp ++ (',' :: ' ' ::
            (sepJoin ((sp2 :: rest2).map splitPayload) ++ ']' :: tail)) := by
        simp
      rw [hassoc]
      rw [jsonItems.eq_def]
      simp only []
      rw [jsonVal_payload sp h _ (hamts sp (by simp))]
      simp only []
      have hskip : skipWs (',' :: ' ' ::
          (sepJoin ((sp2 :: rest2).map splitPayload) ++ ']' :: tail)) =
          ',' :: ' ' :: (sepJoin ((sp2 :: rest2).map splitPayload) ++ ']' :: tail) :=
        skipWs_cons _ _ (by decide)
      rw [hskip]
      simp only []
      rw [show h + 5 = (h + 4) + 1 by omega, jsonItems_ws]
      rw [ih ((h + 4) + 1) tail
        (fun sp' hsp' q hq => hamts sp' (by simp [hsp']) q hq)
        (by simp)
        (by simp at hf ⊢; omega)]
      rfl

theorem splitPayload_length_pos (sp : SharedSplit) : 1 ≤ (splitPayload sp).length := by
  rw [splitPayload]
  simp

theorem sepJoin_length_ge (sps : List SharedSplit) :
    sps.length ≤ (sepJoin (sps.map splitPayload)).length := by
  induction sps with
  | nil => simp [sepJoin]
  | cons sp rest ih =>
    rcases rest with _ | ⟨sp2, r2⟩
    · simpa using splitPayload_length_pos sp
    · rw [show sepJoin ((sp :: sp2 :: r2).map splitPayload) =
          splitPayload sp ++ ',' :: ' ' :: sepJoin ((sp2 :: r2).map splitPayload) from rfl]
      have h1 := splitPayload_length_pos sp
      simp only [List.length_append, List.length_cons]
      simp only [List.length_cons] at ih ⊢
      omega

theorem jsonArrBody_payloads (sp : SharedSplit) (rest : List SharedSplit) (f : ℕ)
    (tail : List Char) :
    jsonArrBody (f + 1) (sepJoin ((sp :: rest).map splitPayload) ++ ']' :: tail) =
      (jsonItems f (sepJoin ((sp :: rest).map splitPayload) ++ ']' :: tail)).map
        (fun p => (PyJson.jarr p.1, p.2)) := by
  rcases rest with _ | ⟨sp2, r2⟩ <;> rfl

theorem jsonParse_serialize (sps : List SharedSplit) (hne : sps ≠ [])
    (hamts : ∀ sp ∈ sps, ∀ q, sp.amount = some q → ∃ j, decDigitsOf q.den = some j) :
    jsonParse (_serialize_shared_splits sps) = some (.jarr (sps.map payloadJson)) := by
  obtain ⟨sp, rest, rfl⟩ : ∃ sp rest, sps = sp :: rest := by
    rcases sps with _ | ⟨a, b⟩
    · exact absurd rfl hne
    · exact ⟨a, b, rfl⟩
  rw [_serialize_shared_splits]
  rw [if_neg (by simp : ¬ ((sp :: rest : List SharedSplit).isEmpty = true))]
  rw [jsonParse.eq_def]
  have hdata : (String.mk ('[' :: sepJoin ((sp :: rest).map splitPayload) ++ [']'])).data =
      '[' :: (sepJoin ((sp :: rest).map splitPayload) ++ [']']) := by simp
  rw [hdata]
  have hlen : ('[' :: (sepJoin ((sp :: rest).map splitPayload) ++ [']'])).length =
      (sepJoin ((sp :: rest).map splitPayload)).length + 2 := by simp
  rw [hlen]
  rw [show 3 * ((sepJoin ((sp :: rest).map splitPayload)).length + 2) + 8 =
      ((3 * (sepJoin ((sp :: rest).map splitPayload)).length + 12) + 1) + 1 by ring]
  rw [jsonVal_lbracket]
  rw [jsonArrBody_payloads sp rest]
  rw [jsonItems_payloads (sp :: rest) (3 * (sepJoin ((sp :: rest).map splitPayload)).length + 12)
    [] hamts (by simp) (by
      have hge := sepJoin_length_ge (sp :: rest)
      simp only [List.length_cons] at hge ⊢
      omega)]
  rfl

theorem splitFromItem_payloadJson (sp : SharedSplit)
    (hname : pyStrip sp.name = sp.name) (hne : sp.name ≠ "") :
    splitFromItem (payloadJson sp) = some sp := by
  obtain ⟨name, amount⟩ := sp
  simp only at hname hne
  rcases amount with _ | q
  · show splitFromItem (.jobj [("name", .jstr name), ("amount", .null)]) = some ⟨name, none⟩
    rw [splitFromItem]
    rw [show objGet [("name", PyJson.jstr name), ("amount", PyJson.null)] "name" =
        some (.jstr name) from rfl]
    rw [show objGet [("name", PyJson.jstr name), ("amount", PyJson.null)] "amount" =
        some PyJson.null from rfl]
    simp only [Option.getD_some]
    rw [show pyStr (PyJson.jstr name) = name from rfl]
    rw [hname, if_neg hne]
  · show splitFromItem (.jobj [("name", .jstr name), ("amount", .jnum q)]) = some ⟨name, some q⟩
    rw [splitFromItem]
    rw [show objGet [("name", PyJson.jstr name), ("amount", PyJson.jnum q)] "name" =
        some (.jstr name) from rfl]
    rw [show objGet [("name", PyJson.jstr name), ("amount", PyJson.jnum q)] "amount" =
        some (PyJson.jnum q) from rfl]
    simp only [Option.getD_some]
    rw [show pyStr (PyJson.jstr name) = name from rfl]
    rw [hname, if_neg hne]
    rfl

theorem filterMap_payloads (sps : List SharedSplit)
    (h : ∀ sp ∈ sps, pyStrip sp.name = sp.name ∧ sp.name ≠ "") :
    (sps.map payloadJson).filterMap splitFromItem = sps := by
  induction sps with
  | nil => rfl
  | cons sp rest ih =>
    simp only [List.map_cons, List.filterMap_cons]
    rw [splitFromItem_payloadJson sp (h sp (by simp)).1 (h sp (by simp)).2]
    simp only []
    rw [ih (fun sp' h' => h sp' (by simp [h']))]

/-- The shared-splits store/load round trip: serializing and deserializing
a split list recovers it exactly, provided every participant name is
non-blank and free of leading/trailing whitespace (the loader strips
names) and every specified amount is an exact decimal (as every stored
float is). -/
theorem deserialize_serialize_splits (sps : List SharedSplit)
    (hnames : ∀ sp ∈ sps, pyStrip sp.name = sp.name ∧ sp.name ≠ "")
    (hamts : ∀ sp ∈ sps, ∀ q, sp.amount = some q → ∃ j, decDigitsOf q.den = some j) :
    _deserialize_shared_splits (_serialize_shared_splits sps) = .ok sps := by
  rcases sps with _ | ⟨sp, rest⟩
  · rfl
  · rw [_deserialize_shared_splits]
    have hne : _serialize_shared_splits (sp :: rest) ≠ "" := by
      rw [_serialize_shared_splits, if_neg (by simp : ¬ ((sp :: rest : List SharedSplit).isEmpty = true))]
      intro hcontr
      have := congrArg String.data hcontr
      simp at this
    rw [if_neg hne]
    rw [jsonParse_serialize (sp :: rest) (by simp) hamts]
    simp only []
    rw [filterMap_payloads (sp :: rest) hnames]

set_option linter.unnecessarySeqFocus false in
/-- C6 (amended): for a transaction whose fields are normalized (amount
equal to its own 2-decimal rounding, shared_flag true only when splits
are present, valid timestamp and date) and whose shared-split names are
non-blank and already stripped of surrounding whitespace, with every
specified split amount an exact decimal (as every stored float is),
`transaction_from_row` applied to `transaction_to_row` reproduces every
field of the transaction exactly, timestamp and date included at the
stored (microsecond / day) resolution.  The ambient `freshId`, `now` and
`today` defaults are never consulted for such a row. -/
theorem transaction_row_roundtrip (freshId : String) (now : PyDateTime) (today : PyDate)
    (tx : Transaction)
    (hts : tx.timestamp.Valid)
    (hd : tx.date.Valid)
    (hamount : round2 tx.amount = tx.amount)
    (hflag : tx.shared_flag = true → tx.shared_splits ≠ [])
    (hnames : ∀ sp ∈ tx.shared_splits, pyStrip sp.name = sp.name ∧ sp.name ≠ "")
    (hamts : ∀ sp ∈ tx.shared_splits, ∀ q, sp.amount = some q →
      ∃ j, decDigitsOf q.den = some j) :
    transaction_from_row freshId now today (transaction_to_row tx) = .ok tx := by
  rw [transaction_from_row, transaction_to_row]
  simp only [rowGet, Option.getD_some]
  rw [parseIsoDateTime_isoDateTime _ hts, parseIsoDate_isoDate _ hd, parseFloat_fmt2, hamount]
  rw [deserialize_serialize_splits tx.shared_splits hnames hamts]
  simp only [Option.getD_some, bind, Except.bind]
  obtain ⟨id, ts, ty, sub, amt, date, desc, cat, dev, loc, occ, eff, link, sflag,
    ssplits, snotes⟩ := tx
  simp only [] at hflag ⊢
  congr 1
  rcases eff with _ | _ <;> rcases sflag with _ | _ <;>
    simp only [Bool.false_and, Bool.true_and, Bool.and_false, Bool.and_true] <;>
    first
      | rfl
      | (congr 1 <;>
          first
            | rfl
            | decide
            | (cases ssplits <;> simp_all <;> try decide))

set_option maxRecDepth 4000000 in
/-- C6 counterexample: the claim quantifies over every valid normalized
transaction, but a shared split whose name carries surrounding spaces
(" a ") is stripped by the loader during deserialization, so the loaded
transaction differs from the stored one even though amount and
shared_flag are normalized. -/
theorem transaction_row_roundtrip_counterexample :
    transaction_from_row "fresh" ⟨⟨2024, 2, 2⟩, 0, 0, 0, 0⟩ ⟨2024, 2, 2⟩
        (transaction_to_row
          { id := "t1", timestamp := ⟨⟨2024, 1, 2⟩, 3, 4, 5, 6⟩, tx_type := "expense",
            sub_type := "regular", amount := 10, date := ⟨2024, 1, 2⟩,
            shared_flag := true, shared_splits := [⟨" a ", none⟩] }) ≠
      .ok { id := "t1", timestamp := ⟨⟨2024, 1, 2⟩, 3, 4, 5, 6⟩, tx_type := "expense",
            sub_type := "regular", amount := 10, date := ⟨2024, 1, 2⟩,
            shared_flag := true, shared_splits := [⟨" a ", none⟩] } := by
  with_unfolding_all decide

set_option maxRecDepth 1000000 in
/-- C6 witness: a concrete shared expense with two clean splits (one
with an exact-decimal amount of 2.50, one unspecified) survives the
store/load round trip unchanged. -/
theorem transaction_row_roundtrip_witness :
    transaction_from_row "fresh" ⟨⟨2024, 2, 2⟩, 0, 0, 0, 0⟩ ⟨2024, 2, 2⟩
        (transaction_to_row
          { id := "t1", timestamp := ⟨⟨2024, 1, 2⟩, 3, 4, 5, 6⟩, tx_type := "expense",
            sub_type := "regular", amount := 10, date := ⟨2024, 1, 2⟩,
            shared_flag := true, shared_splits := [⟨"amit", some (5 / 2)⟩, ⟨"raj", none⟩] }) =
      .ok { id := "t1", timestamp := ⟨⟨2024, 1, 2⟩, 3, 4, 5, 6⟩, tx_type := "expense",
            sub_type := "regular", amount := 10, date := ⟨2024, 1, 2⟩,
            shared_flag := true, shared_splits := [⟨"amit", some (5 / 2)⟩, ⟨"raj", none⟩] } :=
  transaction_row_roundtrip "fresh" ⟨⟨2024, 2, 2⟩, 0, 0, 0, 0⟩ ⟨2024, 2, 2⟩ _
    (by decide) (by decide) (by with_unfolding_all decide) (by decide) (by decide)
    (by
      intro sp hsp q hq
      simp only [List.mem_cons, List.not_mem_nil, or_false] at hsp
      rcases hsp with h | h <;> subst h
      · simp only [Option.some.injEq] at hq
        subst hq
        exact ⟨1, by with_unfolding_all decide⟩
      · cases hq)
